import Mathlib

/-!
Shallow embedding of the checkout/reservation core of the ecom-microservices
repository, together with proofs about it.

Modelled source files:
* `services/product-service/app/crud.py` — the stock-reservation ledger
  (`create_reservations`, `release_reservations`, `decrease_stock_batch`,
  `commit_reservations_and_decrease_stock`, `_reserved_qty_for_product`).
* `services/product-service/app/routers/product_router.py` — the reservation
  RPC schema (`ReservationRequest`).
* `services/order-service/app/payment_consumer.py` — the settlement saga
  handlers (`_handle_payment_succeeded`, `_handle_payment_failed`).
* `services/order-service/app/routers/order_router.py` — the cart state
  machine (`_is_active_checkout`, `_ensure_cart_editable`, `update_my_cart`,
  `checkout_my_cart`) and `services/order-service/app/crud.py`
  (`upsert_cart_items`, `mark_order_paid`).

Modelling conventions:
* timestamps are natural numbers (seconds); both services normalise all
  datetimes to UTC before comparing, so a single numeric timeline is faithful;
* SQL integers are `Int` (they may in principle go negative, which is exactly
  what the non-negativity claims are about); row ids/foreign keys are `Nat`;
* a database session is explicit state passing: each embedded function maps
  the committed state to either a new committed state or an error.  Each of
  the modelled ledger functions commits exactly once, at its end, and every
  error path runs `db.rollback()` (or discards the session via
  `get_db`/`db.close()`), so an error leaves the committed state equal to the
  input state; `..._committed` wrappers make that explicit.
-/

namespace Ecom

/-! ## Data model (product-service `models.py`) -/

/-- A row of the `stock_reservations` table: a short-lived hold of `quantity`
units of product `product_id` for order `order_id`, valid until `expires_at`.
The surrogate primary key and `created_at` are omitted (never read by the
modelled code). -/
structure StockReservation where
  order_id : Nat
  user_id : Nat
  product_id : Nat
  quantity : Int
  expires_at : Nat
deriving Repr, DecidableEq

/-- A reservation is active at `now` when `expires_at > now`; the code always
deletes rows with `expires_at <= now` and counts rows with `expires_at > now`. -/
def StockReservation.activeAt (r : StockReservation) (now : Nat) : Bool :=
  decide (now < r.expires_at)

/-- The ledger state of product-service: the authoritative stock per product
id (`none` = no such product row) plus the `stock_reservations` table. -/
structure Ledger where
  stock : Nat → Option Int
  reservations : List StockReservation

/-- Errors raised (as `ValueError`) by the ledger functions in
`product-service/app/crud.py`. -/
inductive ResErr where
  | qtyNotPositive
  | productNotFound (pid : Nat)
  | insufficientStock (pid : Nat)
  | insufficientAvailable (pid : Nat) (available : Int) (requested : Int)
deriving Repr, DecidableEq

/-! ## `_reserved_qty_for_product` and helpers (crud.py lines 150-166) -/

/-- Embeds `_reserved_qty_for_product`: the summed quantity of reservations of
`pid` that are unexpired at `now`, optionally excluding one order's rows. -/
def reservedQtyFor (rs : List StockReservation) (pid : Nat) (now : Nat)
    (excludeOrder : Option Nat) : Int :=
  ((rs.filter (fun r =>
      r.product_id == pid && r.activeAt now &&
        (match excludeOrder with
         | some o => r.order_id != o
         | none => true))).map StockReservation.quantity).sum

/-! ## Merging duplicate product ids (crud.py lines 116-122 and 194-200)

Python builds a dict `merged`, raising `ValueError("quantity must be > 0")`
at the first non-positive quantity; dict iteration order is first-occurrence
(insertion) order. -/

/-- One step of the Python `merged[pid] = merged.get(pid, 0) + qty` update on
an association list kept in insertion order. -/
def upsertMerged (acc : List (Nat × Int)) (pid : Nat) (qty : Int) :
    List (Nat × Int) :=
  if acc.any (fun e => e.1 == pid) then
    acc.map (fun e => if e.1 == pid then (e.1, e.2 + qty) else e)
  else acc ++ [(pid, qty)]

/-- The merging loop over the request items. -/
def mergeItemsGo (acc : List (Nat × Int)) :
    List (Nat × Int) → Except ResErr (List (Nat × Int))
  | [] => .ok acc
  | (pid, qty) :: rest =>
    if qty ≤ 0 then .error .qtyNotPositive
    else mergeItemsGo (upsertMerged acc pid qty) rest

/-- Embeds the `merged` dict construction: merge duplicate `product_id`s by
summing quantities, rejecting non-positive quantities. -/
def mergeItems (items : List (Nat × Int)) : Except ResErr (List (Nat × Int)) :=
  mergeItemsGo [] items

/-- Quantity recorded for `pid` in a merged association list (0 if absent),
i.e. the Python `merged[pid]` lookup. -/
def lookupQty (merged : List (Nat × Int)) (pid : Nat) : Int :=
  ((merged.find? (fun e => e.1 == pid)).map Prod.snd).getD 0

/-! ## `sorted(merged.keys())` (crud.py lines 126 and 204) -/

/-- Insert into an ascending list, keeping it ascending. -/
def insertAsc (x : Nat) : List Nat → List Nat
  | [] => [x]
  | y :: ys => if x ≤ y then x :: y :: ys else y :: insertAsc x ys

/-- Insertion sort, embedding Python `sorted` on the merged keys. -/
def sortKeys : List Nat → List Nat
  | [] => []
  | x :: xs => insertAsc x (sortKeys xs)

/-- The ascending list of product ids of a merged request. -/
def sortedKeys (merged : List (Nat × Int)) : List Nat :=
  sortKeys (merged.map Prod.fst)

/-! ## `create_reservations` (crud.py lines 169-236) -/

/-- Embeds lines 182-183: a non-positive `ttl_seconds` is silently replaced
by 60. -/
def effectiveTtl (ttl_seconds : Int) : Int :=
  if ttl_seconds ≤ 0 then 60 else ttl_seconds

/-- The session's reservation rows after the two deletes of lines 189-191:
purge every expired row, then delete every row of this order. -/
def sessionAfterDeletes (lg : Ledger) (order_id : Nat) (now : Nat) :
    List StockReservation :=
  (lg.reservations.filter (fun r => r.activeAt now)).filter
    (fun r => r.order_id != order_id)

/-- The validation loop of lines 204-218: walk the sorted product ids; a
missing product or an item exceeding
`available = stock - Σ(active reservations excluding this order)` aborts. -/
def validateItems (lg : Ledger) (sessionRs : List StockReservation)
    (order_id : Nat) (now : Nat) (merged : List (Nat × Int)) :
    List Nat → Except ResErr Unit
  | [] => .ok ()
  | pid :: rest =>
    match lg.stock pid with
    | none => .error (.productNotFound pid)
    | some s =>
      let qty := lookupQty merged pid
      let reserved := reservedQtyFor sessionRs pid now (some order_id)
      let available := s - reserved
      if available < qty then .error (.insufficientAvailable pid available qty)
      else validateItems lg sessionRs order_id now merged rest

/-- The rows inserted by lines 221-230: one row per merged product, all with
`expires_at = reserved_until`. -/
def newReservationRows (order_id user_id : Nat) (merged : List (Nat × Int))
    (reserved_until : Nat) : List StockReservation :=
  merged.map (fun e => ⟨order_id, user_id, e.1, e.2, reserved_until⟩)

/-- Embeds `create_reservations` (crud.py lines 169-236).  On success returns
the committed state and `reserved_until`; every error path rolls the session
back (lines 234-236, or session teardown for the merge error of line 199), so
on error the committed state is the input state. -/
def create_reservations (lg : Ledger) (order_id user_id : Nat)
    (items : List (Nat × Int)) (ttl_seconds : Int) (now : Nat) :
    Except ResErr (Ledger × Nat) :=
  let t := effectiveTtl ttl_seconds
  let reserved_until := now + t.toNat
  let rs1 := sessionAfterDeletes lg order_id now
  match mergeItems items with
  | .error e => .error e
  | .ok merged =>
    match validateItems lg rs1 order_id now merged (sortedKeys merged) with
    | .error e => .error e
    | .ok _ =>
      .ok ({ lg with reservations :=
              rs1 ++ newReservationRows order_id user_id merged reserved_until },
           reserved_until)

/-- The committed ledger state after a `create_reservations` call: the new
state on success, the unchanged input state on error (rollback). -/
def create_reservations_committed (lg : Ledger) (order_id user_id : Nat)
    (items : List (Nat × Int)) (ttl_seconds : Int) (now : Nat) : Ledger :=
  match create_reservations lg order_id user_id items ttl_seconds now with
  | .ok (lg2, _) => lg2
  | .error _ => lg

/-! ## `release_reservations` (crud.py lines 239-246) -/

/-- Embeds `release_reservations`: purge all expired rows, then delete this
order's remaining rows, returning how many rows that second delete removed. -/
def release_reservations (lg : Ledger) (order_id : Nat) (now : Nat) :
    Ledger × Nat :=
  let purged := lg.reservations.filter (fun r => r.activeAt now)
  let kept := purged.filter (fun r => r.order_id != order_id)
  let deleted := (purged.filter (fun r => r.order_id == order_id)).length
  ({ lg with reservations := kept }, deleted)

/-! ## `decrease_stock_batch` (crud.py lines 113-143) -/

/-- The decrement loop of lines 126-138 over the sorted merged keys: a missing
product or `stock < qty` aborts; otherwise the product's stock is decremented
in the session. -/
def decreaseLoop (stock : Nat → Option Int) (merged : List (Nat × Int)) :
    List Nat → Except ResErr (Nat → Option Int)
  | [] => .ok stock
  | pid :: rest =>
    match stock pid with
    | none => .error (.productNotFound pid)
    | some s =>
      let qty := lookupQty merged pid
      if s < qty then .error (.insufficientStock pid)
      else decreaseLoop (Function.update stock pid (some (s - qty))) merged rest

/-- Embeds `decrease_stock_batch`: merge duplicates, decrement each product in
ascending id order, commit once at the end; any error rolls the whole batch
back (lines 141-143), leaving the committed state equal to the input. -/
def decrease_stock_batch (lg : Ledger) (items : List (Nat × Int)) :
    Except ResErr Ledger :=
  match mergeItems items with
  | .error e => .error e
  | .ok merged =>
    match decreaseLoop lg.stock merged (sortedKeys merged) with
    | .error e => .error e
    | .ok st2 => .ok { lg with stock := st2 }

/-- The committed ledger state after a `decrease_stock_batch` call (rollback
on error). -/
def decrease_stock_batch_committed (lg : Ledger) (items : List (Nat × Int)) :
    Ledger :=
  match decrease_stock_batch lg items with
  | .ok lg2 => lg2
  | .error _ => lg

/-! ## `commit_reservations_and_decrease_stock` (crud.py lines 249-259) -/

/-- Embeds `commit_reservations_and_decrease_stock`: decrement stock for the
items, then delete the order's reservation rows.  An error in the decrement
leaves the committed state unchanged. -/
def commit_reservations_and_decrease_stock (lg : Ledger) (order_id : Nat)
    (items : List (Nat × Int)) : Except ResErr Ledger :=
  match decrease_stock_batch lg items with
  | .error e => .error e
  | .ok lg1 =>
    .ok { lg1 with reservations :=
            lg1.reservations.filter (fun r => r.order_id != order_id) }

/-- The committed ledger state after a
`commit_reservations_and_decrease_stock` call (rollback on error). -/
def commit_reservations_and_decrease_stock_committed (lg : Ledger)
    (order_id : Nat) (items : List (Nat × Int)) : Ledger :=
  match commit_reservations_and_decrease_stock lg order_id items with
  | .ok lg2 => lg2
  | .error _ => lg

/-! ## Reservation RPC schema (product_router.py lines 24-33) -/

/-- Embeds the pydantic `ReservationRequest` field constraints:
`order_id > 0`, `user_id > 0`, `10 ≤ ttl_seconds ≤ 600`, a non-empty item
list, and each `ReservationItem` with `product_id > 0` and `quantity > 0`. -/
def reservationRequestValid (order_id user_id : Nat) (ttl_seconds : Int)
    (items : List (Nat × Int)) : Prop :=
  0 < order_id ∧ 0 < user_id ∧ 10 ≤ ttl_seconds ∧ ttl_seconds ≤ 600 ∧
    items ≠ [] ∧ ∀ e ∈ items, 0 < e.1 ∧ 0 < e.2

/-! ## Order-service data model (`order-service/app/models.py`) -/

/-- A row of `order_items`: product id, snapshotted name, quantity and unit
price (modelled as integer money units). -/
structure OrderItem where
  product_id : Nat
  product_name : String
  quantity : Int
  price : Int
deriving Repr, DecidableEq

/-- A row of `orders`.  `status` ranges over the string states used by the
code: "pending", "checkout_pending", "confirmed", "cancelled". -/
structure Order where
  id : Nat
  user_id : Nat
  status : String
  payment_status : Bool
  total_amount : Int
  checkout_expires_at : Option Nat
  items : List OrderItem
deriving Repr, DecidableEq

/-- The `(product_id, quantity)` pairs the order-service sends to the ledger
and puts into `order.paid` events. -/
def Order.itemPairs (o : Order) : List (Nat × Int) :=
  o.items.map (fun i => (i.product_id, i.quantity))

/-! ## Missing HTTP client glue

`order-service/app/external_services.py` in the repository snapshot is a
broken merge-conflict file that no longer defines `reserve_stock_for_order`
and `release_stock_reservation`, although `order_router.py` and
`payment_consumer.py` import and call them. -/

/-- Modelled from the spec: `reserve_stock_for_order`, missing from
`external_services.py`.  Per spec section 6, the reservation RPC
`POST reserve {order_id, user_id, ttl_seconds, items} → {reserved_until}`
forwards to the ledger Reserve operation (served by
`product_router.reserve_stock_for_checkout`, which calls
`create_reservations` and propagates its error kinds). -/
def reserve_stock_for_order (lg : Ledger) (order_id user_id : Nat)
    (items : List (Nat × Int)) (ttl_seconds : Int) (now : Nat) :
    Except ResErr (Ledger × Nat) :=
  create_reservations lg order_id user_id items ttl_seconds now

/-- Modelled from the spec: `release_stock_reservation`, missing from
`external_services.py`.  Per spec section 6, `POST release {order_id} →
{released: count}` forwards to the ledger Release operation (served by
`product_router.release_stock_reservation`, which calls
`release_reservations`). -/
def release_stock_reservation (lg : Ledger) (order_id : Nat) (now : Nat) :
    Ledger × Nat :=
  release_reservations lg order_id now

/-! ## Settlement saga (`order-service/app/payment_consumer.py`) -/

/-- Result of one saga handler run: the updated order row (when the payload
named an existing order), the updated ledger, and the items payload of the
`order.paid` event when one was published. -/
structure SagaResult where
  order : Option Order
  ledger : Ledger
  publishedPaid : Option (List (Nat × Int))

/-- Embeds `_handle_payment_succeeded` (payment_consumer.py lines 15-79).
`orderRow` is the result of the `crud.get_order` lookup (`none` when the
payload had no usable order id or no such order exists).  If the order is
already paid, not in `checkout_pending`, or its checkout window is missing or
expired, the handler cancels the checkout and releases the reservation;
otherwise it marks the order paid (`crud.mark_order_paid`: payment_status
true, status "confirmed", expiry cleared) and publishes `order.paid`. -/
def handle_payment_succeeded (orderRow : Option Order) (lg : Ledger)
    (now : Nat) : SagaResult :=
  match orderRow with
  | none => ⟨none, lg, none⟩
  | some o =>
    let invalid := o.payment_status || o.status != "checkout_pending" ||
      (match o.checkout_expires_at with
       | none => true
       | some e => decide (e ≤ now))
    if invalid then
      let o2 := { o with payment_status := false, status := "cancelled",
                         checkout_expires_at := none }
      ⟨some o2, (release_stock_reservation lg o.id now).1, none⟩
    else
      let o2 := { o with payment_status := true, status := "confirmed",
                         checkout_expires_at := none }
      ⟨some o2, lg, some o.itemPairs⟩

/-- Embeds `_handle_payment_failed` (payment_consumer.py lines 82-108): a
missing order or an already-paid order is left untouched; otherwise the
checkout is cancelled (items kept), the expiry cleared, and the order's
reservations released best-effort. -/
def handle_payment_failed (orderRow : Option Order) (lg : Ledger)
    (now : Nat) : SagaResult :=
  match orderRow with
  | none => ⟨none, lg, none⟩
  | some o =>
    if o.payment_status then ⟨some o, lg, none⟩
    else
      let o2 := { o with payment_status := false, status := "cancelled",
                         checkout_expires_at := none }
      ⟨some o2, (release_stock_reservation lg o.id now).1, none⟩

/-! ## Cart state machine (`order-service/app/routers/order_router.py` and
`order-service/app/crud.py`) -/

/-- Embeds `_is_active_checkout` (order_router.py lines 27-39): the order is
in `checkout_pending` and its reservation window has not expired. -/
def is_active_checkout (o : Order) (now : Nat) : Bool :=
  o.status == "checkout_pending" &&
    (match o.checkout_expires_at with
     | none => false
     | some e => decide (now < e))

/-- Embeds `crud.recalc_order_total`. -/
def recalc_order_total (items : List OrderItem) : Int :=
  (items.map (fun i => i.price * i.quantity)).sum

/-- One step of the `crud.upsert_cart_items` loop on the line-item list:
quantity 0 removes the product's line if present; otherwise the line is
updated in place or appended. -/
def upsertOneItem (its : List OrderItem) (pid : Nat) (name : String)
    (qty : Int) (price : Int) : List OrderItem :=
  if qty == 0 then its.filter (fun i => i.product_id != pid)
  else if its.any (fun i => i.product_id == pid) then
    its.map (fun i =>
      if i.product_id == pid then
        { i with product_name := name, quantity := qty, price := price }
      else i)
  else its ++ [⟨pid, name, qty, price⟩]

/-- Embeds `crud.upsert_cart_items` (order-service crud.py lines 114-162):
fold the upsert over the request items, then recalculate the total. -/
def upsert_cart_items (o : Order)
    (items_data : List (Nat × String × Int × Int)) : Order :=
  let its := items_data.foldl
    (fun acc e => upsertOneItem acc e.1 e.2.1 e.2.2.1 e.2.2.2) o.items
  { o with items := its, total_amount := recalc_order_total its }

/-- Errors of the cart-mutation endpoints (`update_my_cart`,
`edit_cart_item`, `delete_cart_item`): 404 no active cart, the 409
"cart_locked_during_checkout" conflict raised by `_ensure_cart_editable`,
404 product missing, 400 insufficient stock. -/
inductive EditErr where
  | noCart
  | cartLocked
  | productNotFound
  | insufficientStock
deriving Repr, DecidableEq

/-- Embeds the `update_my_cart` flow (order_router.py lines 210-255).
`cartRow` is the `crud.get_active_cart_by_user` result; `product_info` is the
`get_product_info` response for `pid` as `(name, price, stock)`, `none` when
the product does not exist.  The `_ensure_cart_editable` gate runs before
anything else touches the order. -/
def update_my_cart (cartRow : Option Order) (now : Nat)
    (product_info : Option (String × Int × Int)) (pid : Nat) (qty : Int) :
    Except EditErr Order :=
  match cartRow with
  | none => .error .noCart
  | some o =>
    if is_active_checkout o now then .error .cartLocked
    else
      match product_info with
      | none => .error .productNotFound
      | some (name, price, stock) =>
        if stock < qty then .error .insufficientStock
        else .ok (upsert_cart_items o [(pid, name, qty, price)])

/-! ## Checkout orchestrator (`order_router.checkout_my_cart`, lines 364-437) -/

/-- Errors of the checkout endpoint: 404 no active cart, 400 empty cart, or a
reservation failure propagated from the ledger. -/
inductive CheckoutErr where
  | noCart
  | emptyCart
  | reserveFailed (e : ResErr)
deriving Repr, DecidableEq

/-- Embeds `checkout_my_cart`.  `cartRow` is the active-cart lookup result.
Returns the committed order row, the committed ledger, and either the
`reserved_until` answered to the caller or the error.  An unexpired hold is
returned as-is; an expired hold is first released and the order cancelled
(committed even if the subsequent fresh reservation fails); a fresh
reservation uses `ttl_seconds = 60` and moves the order to
`checkout_pending` with `checkout_expires_at = reserved_until`. -/
def checkout_my_cart (cartRow : Option Order) (lg : Ledger) (now : Nat) :
    Option Order × Ledger × Except CheckoutErr Nat :=
  match cartRow with
  | none => (none, lg, .error .noCart)
  | some o =>
    if o.items.isEmpty then (some o, lg, .error .emptyCart)
    else
      let activeHold := o.status == "checkout_pending" &&
        (match o.checkout_expires_at with
         | none => false
         | some e => decide (now < e))
      if activeHold then (some o, lg, .ok (o.checkout_expires_at.getD 0))
      else
        let expiredHold := o.status == "checkout_pending" &&
          (match o.checkout_expires_at with
           | none => false
           | some e => decide (e ≤ now))
        let o1 := if expiredHold then
            { o with status := "cancelled", checkout_expires_at := none }
          else o
        let lg1 := if expiredHold then (release_stock_reservation lg o.id now).1
          else lg
        match reserve_stock_for_order lg1 o.id o.user_id o1.itemPairs 60 now with
        | .error e => (some o1, lg1, .error (.reserveFailed e))
        | .ok (lg2, ru) =>
          (some { o1 with status := "checkout_pending",
                          checkout_expires_at := some ru }, lg2, .ok ru)

/-! ## Ledger operation system (for the stock/reservation invariant)

The three mutations of the reservation ledger reachable from the saga and
checkout paths: Reserve (`create_reservations`), Release
(`release_reservations`), CommitAndDecrement
(`commit_reservations_and_decrease_stock`). -/

/-- A single ledger mutation request. -/
inductive LedgerOp where
  | reserve (order_id user_id : Nat) (items : List (Nat × Int))
      (ttl_seconds : Int)
  | release (order_id : Nat)
  | commitPaid (order_id : Nat) (items : List (Nat × Int))

/-- Runs one ledger operation at time `now`; `none` when the operation fails
(in which case the committed state is unchanged, by rollback). -/
def applyOp (lg : Ledger) (now : Nat) : LedgerOp → Option Ledger
  | .reserve o u its ttl =>
    match create_reservations lg o u its ttl now with
    | .ok (lg2, _) => some lg2
    | .error _ => none
  | .release o => some (release_reservations lg o now).1
  | .commitPaid o its =>
    match commit_reservations_and_decrease_stock lg o its with
    | .ok lg2 => some lg2
    | .error _ => none

/-- Every existing product row has non-negative stock. -/
def stockNonneg (lg : Ledger) : Prop :=
  ∀ pid s, lg.stock pid = some s → 0 ≤ s

/-- Every reservation row has positive quantity (the code only ever inserts
rows with `quantity > 0`). -/
def qtyPos (lg : Ledger) : Prop :=
  ∀ r ∈ lg.reservations, 0 < r.quantity

/-- The ledger invariant at time `now`: reservation quantities are positive,
and for every product, `stock ≥ 0` and
`stock − Σ(active reservations of that product) ≥ 0`. -/
def ledgerInv (lg : Ledger) (now : Nat) : Prop :=
  qtyPos lg ∧
    ∀ pid s, lg.stock pid = some s →
      0 ≤ s ∧ reservedQtyFor lg.reservations pid now none ≤ s

/-- The summed quantity of order `o`'s own active reservations of `pid`. -/
def orderActiveQty (lg : Ledger) (o : Nat) (pid : Nat) (now : Nat) : Int :=
  reservedQtyFor (lg.reservations.filter (fun r => r.order_id == o)) pid now
    none

/-- A commit is covered when every committed quantity is at most the order's
own active reserved quantity for that product; Reserve and Release are always
covered. -/
def commitCovered (lg : Ledger) (now : Nat) : LedgerOp → Prop
  | .commitPaid o its =>
    ∀ merged, mergeItems its = .ok merged →
      ∀ pid, lookupQty merged pid ≤ orderActiveQty lg o pid now
  | _ => True

/-- States reachable from `lg0` at time `t0` by successful covered ledger
operations, with time allowed to advance between operations. -/
inductive ReachableFrom (lg0 : Ledger) (t0 : Nat) : Ledger → Nat → Prop where
  | refl : ReachableFrom lg0 t0 lg0 t0
  | tick {lg t t2} : ReachableFrom lg0 t0 lg t → t ≤ t2 →
      ReachableFrom lg0 t0 lg t2
  | step {lg t op lg2} : ReachableFrom lg0 t0 lg t → applyOp lg t op = some lg2 →
      commitCovered lg t op → ReachableFrom lg0 t0 lg2 t

/-! ## Statement-support definitions -/

/-- Total quantity requested for `pid` by a raw item list (what the merged
dict records for `pid`). -/
def itemQtySum (items : List (Nat × Int)) (pid : Nat) : Int :=
  ((items.filter (fun e => e.1 == pid)).map Prod.snd).sum

/-- The `available = stock − Σ(active reservations excluding this order)`
quantity the validation loop computes for `pid` (with the session rows of
this call, i.e. after the purge and this order's delete). -/
def availableFor (lg : Ledger) (order_id pid now : Nat) : Int :=
  (lg.stock pid).getD 0 -
    reservedQtyFor (sessionAfterDeletes lg order_id now) pid now (some order_id)

/-- The reservation rows an order holds in a ledger. -/
def rowsOfOrder (lg : Ledger) (order_id : Nat) : List StockReservation :=
  lg.reservations.filter (fun r => r.order_id == order_id)

/-! ## Concrete states used in counterexamples and witnesses -/

/-- One product (id 1, stock 1); order 1 holds one unit until time 100. -/
def lgHeld : Ledger :=
  ⟨fun p => if p = 1 then some 1 else none, [⟨1, 1, 1, 1, 100⟩]⟩

/-- One product (id 1, stock 5) and no reservations. -/
def lgFree : Ledger :=
  ⟨fun p => if p = 1 then some 5 else none, []⟩

/-- No products; a single reservation row of order 2 already expired at
time 10 (it expires at 5). -/
def lgStale : Ledger :=
  ⟨fun _ => none, [⟨2, 1, 1, 1, 5⟩]⟩

/-- An already-paid order (as `mark_order_paid` leaves it). -/
def orderPaid : Order :=
  ⟨1, 7, "confirmed", true, 10, none, [⟨1, "widget", 2, 5⟩]⟩

/-- An order in an active checkout hold until time 150. -/
def orderHold : Order :=
  ⟨1, 7, "checkout_pending", false, 10, some 150, [⟨1, "widget", 2, 5⟩]⟩

/-- A cancelled order with no checkout window (as cancellation leaves it). -/
def orderCancelled : Order :=
  ⟨1, 7, "cancelled", false, 10, none, [⟨1, "widget", 2, 5⟩]⟩

/-! ## Lemmas about summed reservation quantities -/

theorem reservedQtyFor_append (a b : List StockReservation) (pid now : Nat)
    (ex : Option Nat) :
    reservedQtyFor (a ++ b) pid now ex =
      reservedQtyFor a pid now ex + reservedQtyFor b pid now ex := by
  simp [reservedQtyFor, List.filter_append]

theorem reservedQtyFor_nonneg (rs : List StockReservation) (pid now : Nat)
    (ex : Option Nat) (h : ∀ r ∈ rs, 0 ≤ r.quantity) :
    0 ≤ reservedQtyFor rs pid now ex := by
  apply List.sum_nonneg
  intro x hx
  simp only [List.mem_map] at hx
  obtain ⟨r, hr, rfl⟩ := hx
  exact h r (List.mem_of_mem_filter hr)

theorem reservedQtyFor_sublist_le {rs1 rs2 : List StockReservation}
    (h : rs1.Sublist rs2) (pid now : Nat) (ex : Option Nat)
    (hq : ∀ r ∈ rs2, 0 ≤ r.quantity) :
    reservedQtyFor rs1 pid now ex ≤ reservedQtyFor rs2 pid now ex := by
  apply List.Sublist.sum_le_sum ((h.filter _).map _)
  intro a ha
  simp only [List.mem_map] at ha
  obtain ⟨r, hr, rfl⟩ := ha
  exact hq r (List.mem_of_mem_filter hr)

theorem reservedQtyFor_time_mono (rs : List StockReservation) (pid : Nat)
    {now now2 : Nat} (h : now ≤ now2) (ex : Option Nat)
    (hq : ∀ r ∈ rs, 0 ≤ r.quantity) :
    reservedQtyFor rs pid now2 ex ≤ reservedQtyFor rs pid now ex := by
  apply List.Sublist.sum_le_sum
  · apply List.Sublist.map
    apply List.monotone_filter_right
    intro r hr
    simp only [StockReservation.activeAt, Bool.and_eq_true, decide_eq_true_eq] at hr ⊢
    exact ⟨⟨hr.1.1, Nat.lt_of_le_of_lt h hr.1.2⟩, hr.2⟩
  · intro a ha
    simp only [List.mem_map] at ha
    obtain ⟨r, hr, rfl⟩ := ha
    exact hq r (List.mem_of_mem_filter hr)

theorem reservedQtyFor_excl_of_no_order {rs : List StockReservation} {o : Nat}
    (h : ∀ r ∈ rs, r.order_id ≠ o) (pid now : Nat) :
    reservedQtyFor rs pid now (some o) = reservedQtyFor rs pid now none := by
  unfold reservedQtyFor
  congr 1
  apply congrArg
  apply List.filter_congr
  intro r hr
  simp [h r hr]

theorem reservedQtyFor_newRows_self (o u : Nat) (m : List (Nat × Int))
    (ru pid now : Nat) :
    reservedQtyFor (newReservationRows o u m ru) pid now (some o) = 0 := by
  unfold reservedQtyFor newReservationRows
  induction m with
  | nil => rfl
  | cons e rest ih => simpa using ih

theorem reservedQtyFor_cons (r : StockReservation) (rs : List StockReservation)
    (pid now : Nat) (ex : Option Nat) :
    reservedQtyFor (r :: rs) pid now ex =
      (if (r.product_id == pid && r.activeAt now &&
            (match ex with
             | some o => r.order_id != o
             | none => true)) = true
       then r.quantity else 0) + reservedQtyFor rs pid now ex := by
  by_cases h : (r.product_id == pid && r.activeAt now &&
      (match ex with
       | some o => r.order_id != o
       | none => true)) = true <;>
    simp [reservedQtyFor, List.filter_cons, h]

theorem reservedQtyFor_newRows_not_mem (o u : Nat) {m : List (Nat × Int)}
    (ru pid now : Nat) (hpid : pid ∉ m.map Prod.fst) (ex : Option Nat) :
    reservedQtyFor (newReservationRows o u m ru) pid now ex = 0 := by
  induction m with
  | nil => rfl
  | cons e rest ih =>
    simp only [List.map_cons, List.mem_cons, not_or] at hpid
    have hne : (e.1 == pid) = false := by
      simp only [beq_eq_false_iff_ne, ne_eq]
      exact fun hh => hpid.1 hh.symm
    have hcons : newReservationRows o u (e :: rest) ru =
        ⟨o, u, e.1, e.2, ru⟩ :: newReservationRows o u rest ru := rfl
    rw [hcons, reservedQtyFor_cons, if_neg (by simp [hne]), zero_add]
    exact ih hpid.2

theorem reservedQtyFor_newRows_none (o u : Nat) {m : List (Nat × Int)}
    {ru now : Nat} (hru : now < ru) (pid : Nat)
    (hnd : (m.map Prod.fst).Nodup) :
    reservedQtyFor (newReservationRows o u m ru) pid now none =
      lookupQty m pid := by
  induction m with
  | nil => rfl
  | cons e rest ih =>
    simp only [List.map_cons, List.nodup_cons] at hnd
    have hcons : newReservationRows o u (e :: rest) ru =
        ⟨o, u, e.1, e.2, ru⟩ :: newReservationRows o u rest ru := rfl
    rw [hcons, reservedQtyFor_cons]
    by_cases he : e.1 = pid
    · have hrest0 : reservedQtyFor (newReservationRows o u rest ru) pid now none = 0 := by
        apply reservedQtyFor_newRows_not_mem
        rw [← he]; exact hnd.1
      rw [hrest0, if_pos (by simp [he, StockReservation.activeAt, hru])]
      simp [lookupQty, List.find?_cons, he]
    · rw [if_neg (by simp [he]), zero_add, ih hnd.2]
      simp [lookupQty, List.find?_cons, he]

theorem sum_map_filter_split (rs : List StockReservation)
    (p q : StockReservation → Bool) :
    ((rs.filter p).map StockReservation.quantity).sum =
      ((rs.filter (fun r => p r && q r)).map StockReservation.quantity).sum +
      ((rs.filter (fun r => p r && !q r)).map StockReservation.quantity).sum := by
  induction rs with
  | nil => rfl
  | cons r rest ih =>
    by_cases hq : q r <;> by_cases hp : p r <;>
      simp [List.filter_cons, hq, hp, ih] <;> ring

theorem reservedQtyFor_split_order (rs : List StockReservation)
    (o pid now : Nat) :
    reservedQtyFor rs pid now none =
      reservedQtyFor (rs.filter (fun r => r.order_id == o)) pid now none +
        reservedQtyFor (rs.filter (fun r => r.order_id != o)) pid now none := by
  induction rs with
  | nil => rfl
  | cons r rest ih =>
    by_cases ho : r.order_id = o <;>
      by_cases hp : (r.product_id == pid && r.activeAt now) = true <;>
        simp [List.filter_cons, reservedQtyFor_cons, ho, hp, ih, beq_iff_eq,
          bne_iff_ne] <;> ring

/-! ## Lemmas about the session state after the purge and order delete -/

theorem sessionAfterDeletes_sublist (lg : Ledger) (o now : Nat) :
    (sessionAfterDeletes lg o now).Sublist lg.reservations :=
  (List.filter_sublist _).trans (List.filter_sublist _)

theorem sessionAfterDeletes_no_order (lg : Ledger) (o now : Nat) :
    ∀ r ∈ sessionAfterDeletes lg o now, r.order_id ≠ o := by
  intro r hr
  unfold sessionAfterDeletes at hr
  have := List.of_mem_filter hr
  simpa [bne_iff_ne] using this

theorem sessionAfterDeletes_active (lg : Ledger) (o now : Nat) :
    ∀ r ∈ sessionAfterDeletes lg o now, r.activeAt now = true := by
  intro r hr
  unfold sessionAfterDeletes at hr
  have h1 : r ∈ lg.reservations.filter (fun r => r.activeAt now) :=
    List.mem_of_mem_filter hr
  simpa using List.of_mem_filter h1

/-! ## Lemmas about the key sort -/

theorem mem_insertAsc {x a : Nat} {l : List Nat} :
    a ∈ insertAsc x l ↔ a = x ∨ a ∈ l := by
  induction l with
  | nil => simp [insertAsc]
  | cons y ys ih =>
    by_cases h : x ≤ y
    · simp [insertAsc, h]
    · simp [insertAsc, h, ih]
      tauto

theorem mem_sortKeys {a : Nat} {l : List Nat} : a ∈ sortKeys l ↔ a ∈ l := by
  induction l with
  | nil => simp [sortKeys]
  | cons x xs ih => simp [sortKeys, mem_insertAsc, ih]

theorem pairwise_insertAsc {x : Nat} {l : List Nat}
    (h : l.Pairwise (· ≤ ·)) : (insertAsc x l).Pairwise (· ≤ ·) := by
  induction l with
  | nil => simp [insertAsc]
  | cons y ys ih =>
    rw [List.pairwise_cons] at h
    by_cases hxy : x ≤ y
    · rw [insertAsc, if_pos hxy, List.pairwise_cons]
      refine ⟨?_, List.pairwise_cons.mpr h⟩
      intro b hb
      rcases List.mem_cons.mp hb with rfl | hb
      · exact hxy
      · exact hxy.trans (h.1 b hb)
    · rw [insertAsc, if_neg hxy, List.pairwise_cons]
      refine ⟨?_, ih h.2⟩
      intro b hb
      rcases mem_insertAsc.mp hb with rfl | hb
      · exact Nat.le_of_not_le hxy
      · exact h.1 b hb

theorem pairwise_sortKeys (l : List Nat) : (sortKeys l).Pairwise (· ≤ ·) := by
  induction l with
  | nil => simp [sortKeys]
  | cons x xs ih => exact pairwise_insertAsc ih

theorem mem_sortedKeys {pid : Nat} {merged : List (Nat × Int)} :
    pid ∈ sortedKeys merged ↔ pid ∈ merged.map Prod.fst := by
  unfold sortedKeys
  exact mem_sortKeys

/-! ## Lemmas about merging duplicate product ids -/

theorem lookupQty_cons (e : Nat × Int) (l : List (Nat × Int)) (pid : Nat) :
    lookupQty (e :: l) pid = if e.1 = pid then e.2 else lookupQty l pid := by
  by_cases h : e.1 = pid <;> simp [lookupQty, List.find?_cons, h]

theorem lookupQty_not_mem {l : List (Nat × Int)} {pid : Nat}
    (h : pid ∉ l.map Prod.fst) : lookupQty l pid = 0 := by
  induction l with
  | nil => rfl
  | cons e rest ih =>
    simp only [List.map_cons, List.mem_cons, not_or] at h
    rw [lookupQty_cons, if_neg (fun hh => h.1 hh.symm)]
    exact ih h.2

theorem lookupQty_append (a b : List (Nat × Int)) (pid : Nat) :
    lookupQty (a ++ b) pid =
      if pid ∈ a.map Prod.fst then lookupQty a pid else lookupQty b pid := by
  induction a with
  | nil => simp
  | cons e rest ih =>
    by_cases he : e.1 = pid
    · rw [List.cons_append, lookupQty_cons, if_pos he, lookupQty_cons,
        if_pos he, if_pos]
      simp [he.symm]
    · rw [List.cons_append, lookupQty_cons, if_neg he, lookupQty_cons,
        if_neg he, ih]
      by_cases hm : pid ∈ rest.map Prod.fst
      · rw [if_pos hm, if_pos (by rw [List.map_cons]; exact List.mem_cons_of_mem _ hm)]
      · rw [if_neg hm, if_neg]
        rw [List.map_cons, List.mem_cons]
        push_neg
        exact ⟨fun hh => he hh.symm, hm⟩

theorem upsertMerged_keys (acc : List (Nat × Int)) (pid : Nat) (qty : Int) :
    (upsertMerged acc pid qty).map Prod.fst =
      if pid ∈ acc.map Prod.fst then acc.map Prod.fst
      else acc.map Prod.fst ++ [pid] := by
  have hmem : (acc.any (fun e => e.1 == pid) = true) ↔ pid ∈ acc.map Prod.fst := by
    rw [List.any_eq_true]
    constructor
    · rintro ⟨e, he, heq⟩
      rw [beq_iff_eq] at heq
      rw [← heq]
      exact List.mem_map_of_mem Prod.fst he
    · intro hm
      simp only [List.mem_map] at hm
      obtain ⟨e, he, rfl⟩ := hm
      exact ⟨e, he, by simp⟩
  unfold upsertMerged
  by_cases h : acc.any (fun e => e.1 == pid)
  · rw [if_pos h, if_pos (hmem.mp h)]
    rw [List.map_map]
    apply List.map_congr_left
    intro e he
    by_cases hp : e.1 = pid <;> simp [hp]
  · rw [if_neg h, if_neg (fun hm => h (hmem.mpr hm))]
    simp

theorem lookupQty_mapAdd (l : List (Nat × Int)) (pid : Nat) (qty : Int)
    (pid2 : Nat) :
    lookupQty (l.map (fun e => if e.1 == pid then (e.1, e.2 + qty) else e)) pid2 =
      if pid2 = pid ∧ pid ∈ l.map Prod.fst then lookupQty l pid2 + qty
      else lookupQty l pid2 := by
  induction l with
  | nil => simp
  | cons e rest ih =>
    have hfst : (if e.1 == pid then (e.1, e.2 + qty) else e).1 = e.1 := by
      by_cases hp : e.1 = pid <;> simp [hp]
    rw [List.map_cons, lookupQty_cons, hfst]
    by_cases he2 : e.1 = pid2
    · rw [if_pos he2, lookupQty_cons, if_pos he2]
      by_cases hp : pid2 = pid
      · rw [if_pos (show pid2 = pid ∧ pid ∈ (e :: rest).map Prod.fst from
            ⟨hp, by
              rw [List.map_cons, show e.1 = pid from he2.trans hp]
              exact List.mem_cons_self _ _⟩)]
        simp [he2.trans hp]
      · have h1 : ¬(pid2 = pid ∧ pid ∈ (e :: rest).map Prod.fst) :=
          fun hc => hp hc.1
        have h2 : ¬((e.1 == pid) = true) := by
          rw [beq_iff_eq]
          exact fun hh => hp (he2.symm.trans hh)
        rw [if_neg h1, if_neg h2]
    · rw [if_neg he2, lookupQty_cons, if_neg he2, ih]
      by_cases hp : pid2 = pid
      · subst hp
        by_cases hm : pid2 ∈ rest.map Prod.fst
        · rw [if_pos ⟨rfl, hm⟩, if_pos]
          refine ⟨rfl, ?_⟩
          rw [List.map_cons]
          exact List.mem_cons_of_mem _ hm
        · rw [if_neg (by tauto), if_neg]
          rintro ⟨-, hmm⟩
          rw [List.map_cons, List.mem_cons] at hmm
          rcases hmm with hh | hh
          · exact he2 hh.symm
          · exact hm hh
      · rw [if_neg (by tauto), if_neg (by tauto)]

theorem upsertMerged_lookup (acc : List (Nat × Int)) (pid : Nat) (qty : Int)
    (pid2 : Nat) :
    lookupQty (upsertMerged acc pid qty) pid2 =
      lookupQty acc pid2 + (if pid2 = pid then qty else 0) := by
  have hmem : (acc.any (fun e => e.1 == pid) = true) ↔ pid ∈ acc.map Prod.fst := by
    rw [List.any_eq_true]
    constructor
    · rintro ⟨e, he, heq⟩
      rw [beq_iff_eq] at heq
      rw [← heq]
      exact List.mem_map_of_mem Prod.fst he
    · intro hm
      simp only [List.mem_map] at hm
      obtain ⟨e, he, rfl⟩ := hm
      exact ⟨e, he, by simp⟩
  unfold upsertMerged
  by_cases h : acc.any (fun e => e.1 == pid)
  · rw [if_pos h, lookupQty_mapAdd]
    by_cases hp : pid2 = pid
    · rw [if_pos ⟨hp, hmem.mp h⟩, if_pos hp]
    · rw [if_neg (by tauto), if_neg hp, add_zero]
  · rw [if_neg h, lookupQty_append]
    by_cases hm : pid2 ∈ acc.map Prod.fst
    · rw [if_pos hm]
      have hp : ¬pid2 = pid := by
        intro hh
        exact h (hmem.mpr (hh ▸ hm))
      rw [if_neg hp, add_zero]
    · rw [if_neg hm, lookupQty_not_mem hm, lookupQty_cons]
      by_cases hp : pid2 = pid
      · simp [hp]
      · rw [if_neg (fun hh : (pid, qty).1 = pid2 => hp hh.symm)]
        simp [lookupQty, hp]

theorem upsertMerged_mem_keys (acc : List (Nat × Int)) (pid : Nat) (qty : Int)
    (pid2 : Nat) :
    pid2 ∈ (upsertMerged acc pid qty).map Prod.fst ↔
      pid2 ∈ acc.map Prod.fst ∨ pid2 = pid := by
  rw [upsertMerged_keys]
  by_cases h : pid ∈ acc.map Prod.fst
  · rw [if_pos h]
    constructor
    · exact Or.inl
    · rintro (hh | rfl)
      · exact hh
      · exact h
  · rw [if_neg h]
    simp

theorem upsertMerged_pos {acc : List (Nat × Int)} {pid : Nat} {qty : Int}
    (hacc : ∀ e ∈ acc, 0 < e.2) (hq : 0 < qty) :
    ∀ e ∈ upsertMerged acc pid qty, 0 < e.2 := by
  intro e he
  unfold upsertMerged at he
  by_cases h : acc.any (fun x => x.1 == pid)
  · rw [if_pos h] at he
    simp only [List.mem_map] at he
    obtain ⟨x, hx, rfl⟩ := he
    by_cases hxp : x.1 = pid
    · simp only [show (x.1 == pid) = true by simp [hxp], if_true]
      exact add_pos (hacc x hx) hq
    · simp only [show (x.1 == pid) = false by simp [hxp], Bool.false_eq_true,
        if_false]
      exact hacc x hx
  · rw [if_neg h] at he
    rcases List.mem_append.mp he with hx | hx
    · exact hacc e hx
    · rcases List.mem_singleton.mp hx with rfl
      exact hq

theorem upsertMerged_keys_nodup {acc : List (Nat × Int)} {pid : Nat}
    {qty : Int} (hnd : (acc.map Prod.fst).Nodup) :
    ((upsertMerged acc pid qty).map Prod.fst).Nodup := by
  rw [upsertMerged_keys]
  by_cases h : pid ∈ acc.map Prod.fst
  · rw [if_pos h]; exact hnd
  · rw [if_neg h]
    rw [List.nodup_append]
    exact ⟨hnd, List.nodup_singleton pid, by simpa using fun hh => h hh⟩

theorem itemQtySum_cons (e : Nat × Int) (items : List (Nat × Int)) (pid : Nat) :
    itemQtySum (e :: items) pid =
      (if e.1 = pid then e.2 else 0) + itemQtySum items pid := by
  by_cases h : e.1 = pid <;> simp [itemQtySum, List.filter_cons, h]

theorem mergeItemsGo_ok_lookup :
    ∀ {items acc m : List (Nat × Int)}, mergeItemsGo acc items = .ok m →
      ∀ pid, lookupQty m pid = lookupQty acc pid + itemQtySum items pid := by
  intro items
  induction items with
  | nil =>
    intro acc m h pid
    cases h
    simp [itemQtySum]
  | cons e rest ih =>
    intro acc m h pid
    rw [mergeItemsGo] at h
    split at h
    · exact absurd h (by simp)
    · rw [ih h pid, upsertMerged_lookup, itemQtySum_cons]
      have : (if pid = e.1 then e.2 else 0) = (if e.1 = pid then e.2 else 0) := by
        by_cases hh : pid = e.1
        · simp [hh]
        · rw [if_neg hh, if_neg (fun hx => hh hx.symm)]
      rw [this]
      ring

theorem mergeItemsGo_ok_mem_keys :
    ∀ {items acc m : List (Nat × Int)}, mergeItemsGo acc items = .ok m →
      ∀ pid, (pid ∈ m.map Prod.fst ↔
        pid ∈ acc.map Prod.fst ∨ pid ∈ items.map Prod.fst) := by
  intro items
  induction items with
  | nil =>
    intro acc m h pid
    cases h
    simp
  | cons e rest ih =>
    intro acc m h pid
    rw [mergeItemsGo] at h
    split at h
    · exact absurd h (by simp)
    · rw [ih h pid, upsertMerged_mem_keys]
      simp only [List.map_cons, List.mem_cons]
      tauto

theorem mergeItemsGo_ok_nodup :
    ∀ {items acc m : List (Nat × Int)}, (acc.map Prod.fst).Nodup →
      mergeItemsGo acc items = .ok m → (m.map Prod.fst).Nodup := by
  intro items
  induction items with
  | nil =>
    intro acc m hnd h
    cases h
    exact hnd
  | cons e rest ih =>
    intro acc m hnd h
    rw [mergeItemsGo] at h
    split at h
    · exact absurd h (by simp)
    · exact ih (upsertMerged_keys_nodup hnd) h

theorem mergeItemsGo_ok_pos :
    ∀ {items acc m : List (Nat × Int)}, (∀ e ∈ acc, 0 < e.2) →
      mergeItemsGo acc items = .ok m → ∀ e ∈ m, 0 < e.2 := by
  intro items
  induction items with
  | nil =>
    intro acc m hacc h
    cases h
    exact hacc
  | cons e rest ih =>
    intro acc m hacc h
    rw [mergeItemsGo] at h
    split at h
    · exact absurd h (by simp)
    · rename_i hq
      exact ih (upsertMerged_pos hacc (lt_of_not_le hq)) h

theorem mergeItemsGo_ok_of_pos :
    ∀ {items : List (Nat × Int)} (acc : List (Nat × Int)),
      (∀ e ∈ items, 0 < e.2) → ∃ m, mergeItemsGo acc items = .ok m := by
  intro items
  induction items with
  | nil => exact fun acc _ => ⟨acc, rfl⟩
  | cons e rest ih =>
    intro acc hpos
    rw [mergeItemsGo]
    rw [if_neg (not_le.mpr (hpos e (List.mem_cons_self _ _)))]
    exact ih _ (fun x hx => hpos x (List.mem_cons_of_mem _ hx))

theorem mergeItemsGo_error :
    ∀ {items acc : List (Nat × Int)} {e : ResErr},
      mergeItemsGo acc items = .error e →
        e = .qtyNotPositive ∧ ∃ x ∈ items, x.2 ≤ 0 := by
  intro items
  induction items with
  | nil =>
    intro acc e h
    exact absurd h (by simp [mergeItemsGo])
  | cons x rest ih =>
    intro acc e h
    rw [mergeItemsGo] at h
    split at h
    · cases h
      exact ⟨rfl, x, List.mem_cons_self _ _, by assumption⟩
    · obtain ⟨he, y, hy, hyq⟩ := ih h
      exact ⟨he, y, List.mem_cons_of_mem _ hy, hyq⟩

theorem mergeItems_ok_lookup {items m : List (Nat × Int)}
    (h : mergeItems items = .ok m) (pid : Nat) :
    lookupQty m pid = itemQtySum items pid := by
  have := mergeItemsGo_ok_lookup h pid
  simpa [lookupQty] using this

theorem mergeItems_ok_mem_keys {items m : List (Nat × Int)}
    (h : mergeItems items = .ok m) (pid : Nat) :
    pid ∈ m.map Prod.fst ↔ pid ∈ items.map Prod.fst := by
  have := mergeItemsGo_ok_mem_keys h pid
  simpa using this

theorem mergeItems_ok_nodup {items m : List (Nat × Int)}
    (h : mergeItems items = .ok m) : (m.map Prod.fst).Nodup :=
  mergeItemsGo_ok_nodup (by simp) h

theorem mergeItems_ok_pos {items m : List (Nat × Int)}
    (h : mergeItems items = .ok m) : ∀ e ∈ m, 0 < e.2 :=
  mergeItemsGo_ok_pos (by simp) h

theorem mergeItems_ok_of_pos {items : List (Nat × Int)}
    (h : ∀ e ∈ items, 0 < e.2) : ∃ m, mergeItems items = .ok m :=
  mergeItemsGo_ok_of_pos [] h

/-! ## Lemmas about the availability validation loop -/

theorem validateItems_ok_iff {lg : Ledger} {sessionRs : List StockReservation}
    {o now : Nat} {merged : List (Nat × Int)} :
    ∀ {keys : List Nat},
      validateItems lg sessionRs o now merged keys = .ok () ↔
        ∀ pid ∈ keys, ∃ s, lg.stock pid = some s ∧
          lookupQty merged pid ≤ s - reservedQtyFor sessionRs pid now (some o) := by
  intro keys
  induction keys with
  | nil => simp [validateItems]
  | cons k rest ih =>
    rw [validateItems]
    cases hs : lg.stock k with
    | none =>
      simp only [hs]
      constructor
      · intro h
        exact absurd h (by simp)
      · intro h
        obtain ⟨s, hss, -⟩ := h k (List.mem_cons_self _ _)
        rw [hs] at hss
        cases hss
    | some s =>
      simp only [hs]
      by_cases hav : s - reservedQtyFor sessionRs k now (some o) <
          lookupQty merged k
      · rw [if_pos hav]
        constructor
        · intro h
          exact absurd h (by simp)
        · intro h
          obtain ⟨s2, hss, hle⟩ := h k (List.mem_cons_self _ _)
          rw [hs] at hss
          cases hss
          exact absurd hle (not_le.mpr hav)
      · rw [if_neg hav, ih]
        constructor
        · intro h pid hpid
          rcases List.mem_cons.mp hpid with rfl | hpid
          · exact ⟨s, hs, not_lt.mp hav⟩
          · exact h pid hpid
        · intro h pid hpid
          exact h pid (List.mem_cons_of_mem _ hpid)

theorem validateItems_error_spec {lg : Ledger}
    {sessionRs : List StockReservation} {o now : Nat}
    {merged : List (Nat × Int)} :
    ∀ {keys : List Nat} {err : ResErr}, keys.Pairwise (· ≤ ·) →
      validateItems lg sessionRs o now merged keys = .error err →
      ∃ pid, pid ∈ keys ∧
        ((lg.stock pid = none ∧ err = .productNotFound pid) ∨
         (∃ s, lg.stock pid = some s ∧
            s - reservedQtyFor sessionRs pid now (some o) <
              lookupQty merged pid ∧
            err = .insufficientAvailable pid
              (s - reservedQtyFor sessionRs pid now (some o))
              (lookupQty merged pid))) ∧
        ∀ pid2 ∈ keys, pid2 < pid →
          ∃ s2, lg.stock pid2 = some s2 ∧
            lookupQty merged pid2 ≤
              s2 - reservedQtyFor sessionRs pid2 now (some o) := by
  intro keys
  induction keys with
  | nil =>
    intro err hsort h
    exact absurd h (by simp [validateItems])
  | cons k rest ih =>
    intro err hsort h
    rw [List.pairwise_cons] at hsort
    rw [validateItems] at h
    cases hs : lg.stock k with
    | none =>
      simp only [hs] at h
      cases h
      refine ⟨k, List.mem_cons_self _ _, Or.inl ⟨hs, rfl⟩, ?_⟩
      intro pid2 hpid2 hlt
      rcases List.mem_cons.mp hpid2 with rfl | hpid2
      · exact absurd hlt (lt_irrefl _)
      · exact absurd hlt (not_lt.mpr (hsort.1 pid2 hpid2))
    | some s =>
      simp only [hs] at h
      by_cases hav : s - reservedQtyFor sessionRs k now (some o) <
          lookupQty merged k
      · rw [if_pos hav] at h
        cases h
        refine ⟨k, List.mem_cons_self _ _, Or.inr ⟨s, hs, hav, rfl⟩, ?_⟩
        intro pid2 hpid2 hlt
        rcases List.mem_cons.mp hpid2 with rfl | hpid2
        · exact absurd hlt (lt_irrefl _)
        · exact absurd hlt (not_lt.mpr (hsort.1 pid2 hpid2))
      · rw [if_neg hav] at h
        obtain ⟨pid, hmem, hcase, hmin⟩ := ih hsort.2 h
        refine ⟨pid, List.mem_cons_of_mem _ hmem, hcase, ?_⟩
        intro pid2 hpid2 hlt
        rcases List.mem_cons.mp hpid2 with rfl | hpid2
        · exact ⟨s, hs, not_lt.mp hav⟩
        · exact hmin pid2 hpid2 hlt

/-! ## Shape lemmas for the ledger operations -/

theorem effectiveTtl_toNat_pos (ttl : Int) : 0 < (effectiveTtl ttl).toNat := by
  unfold effectiveTtl
  by_cases h : ttl ≤ 0
  · rw [if_pos h]; decide
  · rw [if_neg h]
    rw [not_le] at h
    omega

theorem create_reservations_ok_shape {lg : Ledger} {o u : Nat}
    {items : List (Nat × Int)} {ttl : Int} {now : Nat} {lg2 : Ledger} {ru : Nat}
    (h : create_reservations lg o u items ttl now = .ok (lg2, ru)) :
    ∃ merged, mergeItems items = .ok merged ∧
      ru = now + (effectiveTtl ttl).toNat ∧
      lg2.stock = lg.stock ∧
      lg2.reservations = sessionAfterDeletes lg o now ++
        newReservationRows o u merged ru ∧
      validateItems lg (sessionAfterDeletes lg o now) o now merged
        (sortedKeys merged) = .ok () := by
  unfold create_reservations at h
  cases hm : mergeItems items with
  | error e =>
    simp only [hm] at h
    simp at h
  | ok merged =>
    simp only [hm] at h
    cases hv : validateItems lg (sessionAfterDeletes lg o now) o now merged
        (sortedKeys merged) with
    | error e =>
      simp only [hv] at h
      simp at h
    | ok uu =>
      simp only [hv] at h
      rw [Except.ok.injEq, Prod.mk.injEq] at h
      obtain ⟨h1, h2⟩ := h
      subst h1
      subst h2
      exact ⟨merged, rfl, rfl, rfl, rfl, hv⟩

theorem create_reservations_error_rollback {lg : Ledger} {o u : Nat}
    {items : List (Nat × Int)} {ttl : Int} {now : Nat} {err : ResErr}
    (h : create_reservations lg o u items ttl now = .error err) :
    create_reservations_committed lg o u items ttl now = lg := by
  unfold create_reservations_committed
  rw [h]

theorem nodup_insertAsc {x : Nat} {l : List Nat} (hx : x ∉ l)
    (hnd : l.Nodup) : (insertAsc x l).Nodup := by
  induction l with
  | nil => simp [insertAsc]
  | cons y ys ih =>
    rw [List.mem_cons, not_or] at hx
    rw [List.nodup_cons] at hnd
    by_cases h : x ≤ y
    · rw [insertAsc, if_pos h, List.nodup_cons, List.nodup_cons]
      exact ⟨by simp [hx.1, hx.2], hnd.1, hnd.2⟩
    · rw [insertAsc, if_neg h, List.nodup_cons]
      refine ⟨?_, ih hx.2 hnd.2⟩
      intro hmem
      rcases mem_insertAsc.mp hmem with rfl | hmem
      · exact hx.1 rfl
      · exact hnd.1 hmem

theorem nodup_sortKeys {l : List Nat} (hnd : l.Nodup) :
    (sortKeys l).Nodup := by
  induction l with
  | nil => simp [sortKeys]
  | cons x xs ih =>
    rw [List.nodup_cons] at hnd
    exact nodup_insertAsc (fun hm => hnd.1 (mem_sortKeys.mp hm)) (ih hnd.2)

theorem decreaseLoop_ok_spec :
    ∀ {keys : List Nat} {stock : Nat → Option Int} {merged : List (Nat × Int)}
      {st2 : Nat → Option Int}, keys.Nodup →
      decreaseLoop stock merged keys = .ok st2 →
      (∀ pid, pid ∉ keys → st2 pid = stock pid) ∧
      (∀ pid ∈ keys, ∃ s, stock pid = some s ∧ lookupQty merged pid ≤ s ∧
        st2 pid = some (s - lookupQty merged pid)) := by
  intro keys
  induction keys with
  | nil =>
    intro stock merged st2 hnd h
    cases h
    exact ⟨fun _ _ => rfl, fun pid hpid => absurd hpid (by simp)⟩
  | cons k rest ih =>
    intro stock merged st2 hnd h
    rw [List.nodup_cons] at hnd
    rw [decreaseLoop] at h
    cases hs : stock k with
    | none =>
      simp only [hs] at h
      simp at h
    | some s =>
      simp only [hs] at h
      by_cases hlt : s < lookupQty merged k
      · rw [if_pos hlt] at h
        simp at h
      · rw [if_neg hlt] at h
        obtain ⟨hout, hin⟩ := ih hnd.2 h
        constructor
        · intro pid hpid
          rw [List.mem_cons, not_or] at hpid
          rw [hout pid hpid.2, Function.update_noteq (fun hh => hpid.1 hh) _ _]
        · intro pid hpid
          rcases List.mem_cons.mp hpid with rfl | hpid
          · refine ⟨s, hs, not_lt.mp hlt, ?_⟩
            rw [hout pid hnd.1, Function.update_same]
          · obtain ⟨s2, hs2, hle2, hst2⟩ := hin pid hpid
            have hne : pid ≠ k := fun hh => hnd.1 (hh ▸ hpid)
            rw [Function.update_noteq hne _ _] at hs2
            exact ⟨s2, hs2, hle2, hst2⟩

theorem decrease_stock_batch_ok_shape {lg : Ledger}
    {items : List (Nat × Int)} {lg2 : Ledger}
    (h : decrease_stock_batch lg items = .ok lg2) :
    ∃ merged, mergeItems items = .ok merged ∧
      lg2.reservations = lg.reservations ∧
      (∀ pid, pid ∉ merged.map Prod.fst → lg2.stock pid = lg.stock pid) ∧
      (∀ pid ∈ merged.map Prod.fst, ∃ s, lg.stock pid = some s ∧
        lookupQty merged pid ≤ s ∧
        lg2.stock pid = some (s - lookupQty merged pid)) := by
  unfold decrease_stock_batch at h
  cases hm : mergeItems items with
  | error e =>
    simp only [hm] at h
    simp at h
  | ok merged =>
    simp only [hm] at h
    cases hd : decreaseLoop lg.stock merged (sortedKeys merged) with
    | error e =>
      simp only [hd] at h
      simp at h
    | ok st2 =>
      simp only [hd] at h
      rw [Except.ok.injEq] at h
      subst h
      have hnd : (sortedKeys merged).Nodup :=
        nodup_sortKeys (mergeItems_ok_nodup hm)
      obtain ⟨hout, hin⟩ := decreaseLoop_ok_spec hnd hd
      refine ⟨merged, rfl, rfl, ?_, ?_⟩
      · intro pid hpid
        exact hout pid (fun hh => hpid (mem_sortedKeys.mp hh))
      · intro pid hpid
        exact hin pid (mem_sortedKeys.mpr hpid)

theorem commit_ok_shape {lg : Ledger} {o : Nat} {items : List (Nat × Int)}
    {lg2 : Ledger}
    (h : commit_reservations_and_decrease_stock lg o items = .ok lg2) :
    ∃ merged, mergeItems items = .ok merged ∧
      lg2.reservations = lg.reservations.filter (fun r => r.order_id != o) ∧
      (∀ pid, pid ∉ merged.map Prod.fst → lg2.stock pid = lg.stock pid) ∧
      (∀ pid ∈ merged.map Prod.fst, ∃ s, lg.stock pid = some s ∧
        lookupQty merged pid ≤ s ∧
        lg2.stock pid = some (s - lookupQty merged pid)) := by
  unfold commit_reservations_and_decrease_stock at h
  cases hd : decrease_stock_batch lg items with
  | error e =>
    simp only [hd] at h
    simp at h
  | ok lg1 =>
    simp only [hd] at h
    rw [Except.ok.injEq] at h
    subst h
    obtain ⟨merged, hm, hres, hout, hin⟩ := decrease_stock_batch_ok_shape hd
    exact ⟨merged, hm, by rw [hres], hout, hin⟩

/-! ## Invariant preservation -/

theorem reserve_preserves_inv {lg : Ledger} {o u : Nat}
    {items : List (Nat × Int)} {ttl : Int} {now : Nat} {lg2 : Ledger} {ru : Nat}
    (hinv : ledgerInv lg now)
    (h : create_reservations lg o u items ttl now = .ok (lg2, ru)) :
    ledgerInv lg2 now := by
  obtain ⟨merged, hm, hru, hst, hres, hv⟩ := create_reservations_ok_shape h
  have hq0 : ∀ r ∈ lg.reservations, 0 ≤ r.quantity :=
    fun r hr => le_of_lt (hinv.1 r hr)
  have hrs1sub := sessionAfterDeletes_sublist lg o now
  have hnowru : now < ru := by
    rw [hru]
    exact Nat.lt_add_of_pos_right (effectiveTtl_toNat_pos ttl)
  have hnd := mergeItems_ok_nodup hm
  constructor
  · intro r hr
    rw [hres] at hr
    rcases List.mem_append.mp hr with hr | hr
    · exact hinv.1 r (hrs1sub.subset hr)
    · obtain ⟨e, he, rfl⟩ := List.mem_map.mp hr
      exact mergeItems_ok_pos hm e he
  · intro pid s hs
    rw [hst] at hs
    refine ⟨(hinv.2 pid s hs).1, ?_⟩
    rw [hres, reservedQtyFor_append]
    by_cases hmem : pid ∈ merged.map Prod.fst
    · obtain ⟨s2, hs2, hle⟩ :=
        validateItems_ok_iff.mp hv pid (mem_sortedKeys.mpr hmem)
      rw [hs] at hs2
      injection hs2 with hs2
      subst hs2
      have hexcl : reservedQtyFor (sessionAfterDeletes lg o now) pid now (some o)
          = reservedQtyFor (sessionAfterDeletes lg o now) pid now none :=
        reservedQtyFor_excl_of_no_order (sessionAfterDeletes_no_order lg o now)
          pid now
      rw [hexcl] at hle
      rw [reservedQtyFor_newRows_none o u hnowru pid hnd]
      linarith
    · rw [reservedQtyFor_newRows_not_mem o u ru pid now hmem none, add_zero]
      exact le_trans
        (reservedQtyFor_sublist_le hrs1sub pid now none hq0)
        (hinv.2 pid s hs).2

theorem release_preserves_inv {lg : Ledger} {now o : Nat}
    (hinv : ledgerInv lg now) :
    ledgerInv ((release_reservations lg o now).1) now := by
  have hsub : ((lg.reservations.filter (fun r => r.activeAt now)).filter
      (fun r => r.order_id != o)).Sublist lg.reservations :=
    (List.filter_sublist _).trans (List.filter_sublist _)
  constructor
  · intro r hr
    exact hinv.1 r (hsub.subset hr)
  · intro pid s hs
    refine ⟨(hinv.2 pid s hs).1, ?_⟩
    exact le_trans
      (reservedQtyFor_sublist_le hsub pid now none
        (fun r hr => le_of_lt (hinv.1 r hr)))
      (hinv.2 pid s hs).2

theorem commit_preserves_inv {lg : Ledger} {o : Nat}
    {items : List (Nat × Int)} {now : Nat} {lg2 : Ledger}
    (hinv : ledgerInv lg now)
    (h : commit_reservations_and_decrease_stock lg o items = .ok lg2)
    (hcov : ∀ merged, mergeItems items = .ok merged →
      ∀ pid, lookupQty merged pid ≤ orderActiveQty lg o pid now) :
    ledgerInv lg2 now := by
  obtain ⟨merged, hm, hres, hout, hin⟩ := commit_ok_shape h
  have hq0 : ∀ r ∈ lg.reservations, 0 ≤ r.quantity :=
    fun r hr => le_of_lt (hinv.1 r hr)
  constructor
  · intro r hr
    rw [hres] at hr
    exact hinv.1 r (List.mem_of_mem_filter hr)
  · intro pid s2 hs2
    have hsplit := reservedQtyFor_split_order lg.reservations o pid now
    by_cases hmem : pid ∈ merged.map Prod.fst
    · obtain ⟨s, hs, hle, hst2⟩ := hin pid hmem
      rw [hs2] at hst2
      injection hst2 with hst2
      have hcovp := hcov merged hm pid
      have hold := (hinv.2 pid s hs).2
      rw [hres]
      constructor
      · rw [hst2]
        linarith
      · rw [hst2]
        unfold orderActiveQty at hcovp
        linarith
    · have hst2 : lg2.stock pid = lg.stock pid := hout pid hmem
      rw [hs2] at hst2
      have hold := hinv.2 pid s2 hst2.symm
      refine ⟨hold.1, ?_⟩
      rw [hres]
      exact le_trans
        (reservedQtyFor_sublist_le (List.filter_sublist _) pid now none hq0)
        hold.2

theorem applyOp_preserves_stockNonneg {lg : Ledger} {now : Nat} {op : LedgerOp}
    {lg2 : Ledger} (h : applyOp lg now op = some lg2) (hs : stockNonneg lg) :
    stockNonneg lg2 := by
  cases op with
  | reserve o u its ttl =>
    rw [applyOp] at h
    cases hc : create_reservations lg o u its ttl now with
    | error e =>
      simp only [hc] at h
      cases h
    | ok pr =>
      simp only [hc] at h
      injection h with h
      subst h
      obtain ⟨merged, hm, hru, hst, hres, hv⟩ := create_reservations_ok_shape hc
      intro pid s hps
      rw [hst] at hps
      exact hs pid s hps
  | release o =>
    rw [applyOp] at h
    injection h with h
    subst h
    exact hs
  | commitPaid o its =>
    rw [applyOp] at h
    cases hc : commit_reservations_and_decrease_stock lg o its with
    | error e =>
      simp only [hc] at h
      cases h
    | ok lgc =>
      simp only [hc] at h
      injection h with h
      subst h
      obtain ⟨merged, hm, hres, hout, hin⟩ := commit_ok_shape hc
      intro pid s hps
      by_cases hmem : pid ∈ merged.map Prod.fst
      · obtain ⟨s0, hs0, hle, hst0⟩ := hin pid hmem
        rw [hps] at hst0
        injection hst0 with hst0
        rw [hst0]
        linarith
      · rw [hout pid hmem] at hps
        exact hs pid s hps

theorem ledgerInv_time_mono {lg : Ledger} {now now2 : Nat} (h : now ≤ now2)
    (hinv : ledgerInv lg now) : ledgerInv lg now2 := by
  refine ⟨hinv.1, ?_⟩
  intro pid s hs
  refine ⟨(hinv.2 pid s hs).1, ?_⟩
  exact le_trans
    (reservedQtyFor_time_mono lg.reservations pid h none
      (fun r hr => le_of_lt (hinv.1 r hr)))
    (hinv.2 pid s hs).2

theorem applyOp_preserves_inv {lg : Ledger} {now : Nat} {op : LedgerOp}
    {lg2 : Ledger} (hinv : ledgerInv lg now)
    (h : applyOp lg now op = some lg2) (hcov : commitCovered lg now op) :
    ledgerInv lg2 now := by
  cases op with
  | reserve o u its ttl =>
    rw [applyOp] at h
    cases hc : create_reservations lg o u its ttl now with
    | error e =>
      simp only [hc] at h
      cases h
    | ok pr =>
      simp only [hc] at h
      injection h with h
      subst h
      exact reserve_preserves_inv hinv hc
  | release o =>
    rw [applyOp] at h
    injection h with h
    subst h
    exact release_preserves_inv hinv
  | commitPaid o its =>
    rw [applyOp] at h
    cases hc : commit_reservations_and_decrease_stock lg o its with
    | error e =>
      simp only [hc] at h
      cases h
    | ok lgc =>
      simp only [hc] at h
      injection h with h
      subst h
      exact commit_preserves_inv hinv hc hcov


/-! ## Claim C2 -/

/-- Claim C2 as stated is false: from an invariant-satisfying state (product 1
has stock 1, wholly held by an active reservation of order 1), the
commit-and-decrement operation for order 2 (which holds no reservation)
succeeds, and afterwards stock minus the sum of active reservations of
product 1 is negative. -/
theorem c2_counterexample :
    ledgerInv lgHeld 0 ∧
    (applyOp lgHeld 0 (.commitPaid 2 [(1, 1)])).isSome = true ∧
    ¬ ledgerInv ((applyOp lgHeld 0 (.commitPaid 2 [(1, 1)])).getD lgHeld) 0 := by
  refine ⟨⟨?_, ?_⟩, rfl, ?_⟩
  · intro r hr
    simp only [lgHeld, List.mem_singleton] at hr
    subst hr
    decide
  · intro pid s hs
    simp only [lgHeld] at hs
    by_cases hp : pid = 1
    · subst hp
      rw [if_pos rfl] at hs
      injection hs with hs
      subst hs
      exact ⟨by decide, by decide⟩
    · rw [if_neg hp] at hs
      cases hs
  · intro hinv
    have h1 : ((applyOp lgHeld 0 (.commitPaid 2 [(1, 1)])).getD lgHeld).stock 1 =
        some 0 := rfl
    have h2 := (hinv.2 1 0 h1).2
    exact absurd h2 (by decide)

/-- Claim C2 (amended): starting from a state satisfying the ledger invariant,
the invariant (stock ≥ 0 and stock − Σ(active reservations) ≥ 0 for every
product, with positive reservation quantities) is preserved by every
successful reserve and release, by time passing, and by every successful
commit-and-decrement whose per-product quantities are covered by the
committing order's own active reservations; stock ≥ 0 alone is preserved by
every successful operation with no coverage condition. -/
theorem c2_amended :
    (∀ lg0 t0 lg t, ledgerInv lg0 t0 → ReachableFrom lg0 t0 lg t →
      ledgerInv lg t) ∧
    (∀ lg now op lg2, stockNonneg lg → applyOp lg now op = some lg2 →
      stockNonneg lg2) := by
  constructor
  · intro lg0 t0 lg t hinv hreach
    induction hreach with
    | refl => exact hinv
    | tick hr hle ih => exact ledgerInv_time_mono hle ih
    | step hr hop hcov ih => exact applyOp_preserves_inv ih hop hcov
  · intro lg now op lg2 hs h
    exact applyOp_preserves_stockNonneg h hs

/-- Witness for C2 (amended): a concrete two-step trace (a release at time 0)
from a concrete invariant-satisfying ledger. -/
theorem c2_amended_witness :
    ledgerInv ((release_reservations lgFree 1 0).1) 0 :=
  c2_amended.1 lgFree 0 ((release_reservations lgFree 1 0).1) 0
    ⟨fun r hr => absurd hr (by simp [lgFree]),
     fun pid s hs => by
      simp only [lgFree] at hs
      by_cases hp : pid = 1
      · subst hp
        rw [if_pos rfl] at hs
        injection hs with hs
        subst hs
        exact ⟨by decide, by decide⟩
      · rw [if_neg hp] at hs
        cases hs⟩
    (ReachableFrom.step ReachableFrom.refl
      (rfl : applyOp lgFree 0 (LedgerOp.release 1) =
        some ((release_reservations lgFree 1 0).1))
      trivial)



/-! ## Claim C9 -/

/-- Claim C9 as stated is false at a concrete input: releasing order 1 on a
ledger whose only reservation row belongs to order 2 but is expired at the
release time returns 0 deleted rows for order 1, yet the opportunistic purge
deletes order 2's row — so a vacuous release does change another order's
reservations. -/
theorem c9_counterexample :
    (release_reservations lgStale 1 10).2 = 0 ∧
    (release_reservations lgStale 1 10).1.reservations = [] ∧
    lgStale.reservations ≠ [] := by
  exact ⟨rfl, rfl, by decide⟩

/-- Claim C9 (amended): Release never errors (it is a total function),
leaves every stock count unchanged, returns the number of the order's
unexpired rows (which is 0 on a repeat or vacuous release), keeps exactly
the unexpired rows of other orders (so the only rows it may remove besides
the order's own are expired rows of any order — the opportunistic purge),
and releasing again immediately returns 0 and changes nothing. -/
theorem c9_release_spec (lg : Ledger) (o now : Nat) :
    (release_reservations lg o now).1.stock = lg.stock ∧
    (release_reservations lg o now).2 =
      (lg.reservations.filter
        (fun r => r.order_id == o && r.activeAt now)).length ∧
    (release_reservations lg o now).1.reservations =
      lg.reservations.filter (fun r => r.activeAt now && r.order_id != o) ∧
    (∀ r ∈ lg.reservations, r ∉ (release_reservations lg o now).1.reservations →
      r.order_id = o ∨ r.activeAt now = false) ∧
    release_reservations ((release_reservations lg o now).1) o now =
      ((release_reservations lg o now).1, 0) := by
  have hres : (release_reservations lg o now).1.reservations =
      (lg.reservations.filter (fun r => r.activeAt now)).filter
        (fun r => r.order_id != o) := rfl
  have hall : ∀ r ∈ (release_reservations lg o now).1.reservations,
      r.activeAt now = true ∧ (r.order_id != o) = true := by
    intro r hr
    rw [hres] at hr
    have h2 := (List.mem_filter.mp hr).2
    have h3 := (List.mem_filter.mp (List.mem_filter.mp hr).1).2
    exact ⟨h3, h2⟩
  refine ⟨rfl, ?_, ?_, ?_, ?_⟩
  · have h2 : (release_reservations lg o now).2 =
        ((lg.reservations.filter (fun r => r.activeAt now)).filter
          (fun r => r.order_id == o)).length := rfl
    rw [h2, List.filter_filter]
  · rw [hres, List.filter_filter]
    apply List.filter_congr
    intro r hr
    rw [Bool.and_comm]
  · intro r hr hnot
    by_cases ha : r.activeAt now = true
    · by_cases ho : r.order_id = o
      · exact Or.inl ho
      · exfalso
        apply hnot
        rw [hres]
        apply List.mem_filter.mpr
        refine ⟨List.mem_filter.mpr ⟨hr, ha⟩, ?_⟩
        simp [bne_iff_ne, ho]
    · exact Or.inr (Bool.eq_false_iff.mpr ha)
  · have hpurge : (release_reservations lg o now).1.reservations.filter
        (fun r => r.activeAt now) =
        (release_reservations lg o now).1.reservations :=
      List.filter_eq_self.mpr (fun r hr => (hall r hr).1)
    have hkeep : (release_reservations lg o now).1.reservations.filter
        (fun r => r.order_id != o) =
        (release_reservations lg o now).1.reservations :=
      List.filter_eq_self.mpr (fun r hr => (hall r hr).2)
    have hcount : (release_reservations lg o now).1.reservations.filter
        (fun r => r.order_id == o) = [] := by
      rw [List.filter_eq_nil_iff]
      intro r hr
      have := (hall r hr).2
      simp only [bne_iff_ne, ne_eq] at this
      simp [this]
    have e1 : release_reservations ((release_reservations lg o now).1) o now =
        ({ (release_reservations lg o now).1 with reservations :=
            (((release_reservations lg o now).1.reservations.filter
              (fun r => r.activeAt now)).filter (fun r => r.order_id != o)) },
         (((release_reservations lg o now).1.reservations.filter
              (fun r => r.activeAt now)).filter
            (fun r => r.order_id == o)).length) := rfl
    rw [e1, hpurge, hkeep, hcount]
    rfl

/-- Witness for C9 (amended): instantiating the double-release clause on a
concrete ledger. -/
theorem c9_release_spec_witness :
    release_reservations ((release_reservations lgStale 2 0).1) 2 0 =
      ((release_reservations lgStale 2 0).1, 0) :=
  (c9_release_spec lgStale 2 0).2.2.2.2

/-! ## Claim C10 -/

/-- Claim C10: calling the ledger reservation-creation function with
ttl_seconds ≤ 0 does not fail on the TTL — it behaves exactly as a call with
ttl_seconds = 60 and, when it succeeds, returns reserved_until = now + 60 —
even though the reservation RPC schema separately restricts ttl_seconds to
10..600, so such a ttl can never arrive through the validated endpoint. -/
theorem c10_ttl_default {ttl : Int} (h : ttl ≤ 0) :
    (∀ lg o u items now, create_reservations lg o u items ttl now =
      create_reservations lg o u items 60 now) ∧
    (∀ lg o u items now lg2 ru,
      create_reservations lg o u items ttl now = .ok (lg2, ru) →
        ru = now + 60) ∧
    (∀ o u items, ¬ reservationRequestValid o u ttl items) := by
  have heff : effectiveTtl ttl = 60 := if_pos h
  refine ⟨?_, ?_, ?_⟩
  · intro lg o u items now
    unfold create_reservations
    rw [heff]
    rfl
  · intro lg o u items now lg2 ru hok
    obtain ⟨m, hm, hru, -, -, -⟩ := create_reservations_ok_shape hok
    rw [hru, heff]
    rfl
  · rintro o u items ⟨-, -, h10, -⟩
    omega

/-- Witness for C10 at ttl_seconds = 0 on a concrete ledger. -/
theorem c10_ttl_default_witness :
    create_reservations lgFree 1 7 [(1, 2)] 0 0 =
      create_reservations lgFree 1 7 [(1, 2)] 60 0 ∧
    ¬ reservationRequestValid 1 7 0 [(1, 2)] :=
  ⟨(c10_ttl_default (by decide)).1 lgFree 1 7 [(1, 2)] 0,
   (c10_ttl_default (by decide)).2.2 1 7 [(1, 2)]⟩

/-! ## Claim C4 -/

/-- Claim C4: when a ledger batch mutation (multi-item reservation, batch
stock decrement, or commit-and-decrement) fails with any error, the
committed state is exactly the input state: no stock count changed and no
reservation row inserted or deleted (the whole batch rolls back). -/
theorem c4_rollback :
    (∀ lg o u items ttl now err,
      create_reservations lg o u items ttl now = .error err →
        create_reservations_committed lg o u items ttl now = lg) ∧
    (∀ lg items err,
      decrease_stock_batch lg items = .error err →
        decrease_stock_batch_committed lg items = lg) ∧
    (∀ lg o items err,
      commit_reservations_and_decrease_stock lg o items = .error err →
        commit_reservations_and_decrease_stock_committed lg o items = lg) := by
  refine ⟨?_, ?_, ?_⟩
  · intro lg o u items ttl now err h
    unfold create_reservations_committed
    rw [h]
  · intro lg items err h
    unfold decrease_stock_batch_committed
    rw [h]
  · intro lg o items err h
    unfold commit_reservations_and_decrease_stock_committed
    rw [h]

/-- Witness for C4: a concrete failing reservation (requesting 99 of a
product with stock 5) leaves the ledger unchanged. -/
theorem c4_rollback_witness :
    create_reservations_committed lgFree 1 7 [(1, 99)] 60 0 = lgFree :=
  c4_rollback.1 lgFree 1 7 [(1, 99)] 60 0
    (.insufficientAvailable 1 5 99) rfl

/-! ## Claim C1 -/

/-- Claim C1 is contradicted by the code: `_handle_payment_succeeded` routes
an already-paid order (payment_status true) into its cancel branch, so a
duplicate payment.succeeded is NOT a no-op — it flips payment_status to
false and sets status to "cancelled" (releasing the reservations
best-effort); only the already-cancelled half of the claim holds (a
cancelled order is rewritten with its own values and no order.paid event is
published). -/
theorem c1_duplicate_payment_not_noop :
    orderPaid.payment_status = true ∧
    (handle_payment_succeeded (some orderPaid) lgFree 0).order.map
      Order.payment_status = some false ∧
    (handle_payment_succeeded (some orderPaid) lgFree 0).order.map
      Order.status = some "cancelled" ∧
    (handle_payment_succeeded (some orderPaid) lgFree 0).publishedPaid =
      none ∧
    (handle_payment_succeeded (some orderCancelled) lgFree 0).order =
      some orderCancelled ∧
    (handle_payment_succeeded (some orderCancelled) lgFree 0).publishedPaid =
      none := by
  exact ⟨rfl, rfl, rfl, rfl, rfl, rfl⟩

/-! ## Claim C6 -/

/-- Claim C6: processing payment.failed on an unpaid order cancels it,
clears checkout_expires_at, publishes nothing, and releases the order's
reservations (stocks untouched, and afterwards the order holds no
reservation rows); processing payment.failed on an already-paid order
changes nothing at all — order, ledger (hence stock) are untouched. -/
theorem c6_payment_failed (o : Order) (lg : Ledger) (now : Nat) :
    (o.payment_status = true →
      handle_payment_failed (some o) lg now = ⟨some o, lg, none⟩) ∧
    (o.payment_status = false →
      handle_payment_failed (some o) lg now =
        ⟨some { o with payment_status := false, status := "cancelled",
                       checkout_expires_at := none },
         (release_reservations lg o.id now).1, none⟩ ∧
      (release_reservations lg o.id now).1.stock = lg.stock ∧
      ∀ r ∈ (release_reservations lg o.id now).1.reservations,
        r.order_id ≠ o.id) := by
  have e1 : handle_payment_failed (some o) lg now =
      (if o.payment_status then SagaResult.mk (some o) lg none
       else SagaResult.mk (some { o with payment_status := false, status := "cancelled", checkout_expires_at := none }) ((release_reservations lg o.id now).1) none) := rfl
  constructor
  · intro h
    rw [e1, h, if_pos rfl]
  · intro h
    refine ⟨?_, rfl, ?_⟩
    · rw [e1, h, if_neg (by simp)]
    · intro r hr
      have hr2 : r ∈ (lg.reservations.filter (fun r => r.activeAt now)).filter
          (fun r => r.order_id != o.id) := hr
      have := List.of_mem_filter hr2
      simpa [bne_iff_ne] using this

/-- Witness for C6: the already-paid half on concrete inputs. -/
theorem c6_payment_failed_witness :
    handle_payment_failed (some orderPaid) lgFree 0 =
      ⟨some orderPaid, lgFree, none⟩ :=
  (c6_payment_failed orderPaid lgFree 0).1 rfl



/-! ## Claim C8 -/

theorem is_active_checkout_iff (o : Order) (now : Nat) :
    is_active_checkout o now = true ↔
      o.status = "checkout_pending" ∧
        ∃ e, o.checkout_expires_at = some e ∧ now < e := by
  unfold is_active_checkout
  cases hx : o.checkout_expires_at with
  | none => simp [hx]
  | some e => simp [hx]

/-- Claim C8 as stated is false at a concrete input: editing the cart of an
order whose checkout hold expired at 150 is allowed at time 200, but the
edit path performs no lazy revert — the resulting order still has status
"checkout_pending", not "cancelled". -/
theorem c8_counterexample :
    update_my_cart (some orderHold) 200 (some ("widget", 5, 10)) 1 3 =
      .ok ⟨1, 7, "checkout_pending", false, 15, some 150,
        [⟨1, "widget", 3, 5⟩]⟩ ∧
    ("checkout_pending" : String) ≠ "cancelled" := by
  exact ⟨rfl, by decide⟩

/-- Claim C8 (amended): a cart mutation is rejected with the
cart_locked_during_checkout conflict iff the cart order is in
checkout_pending with an unexpired checkout_expires_at; when the order is
not in an active hold (in particular when the hold has expired) and the
product exists with sufficient stock, the edit proceeds via the item upsert
and leaves the order's status unchanged — no lazy revert to cancelled
happens on the edit path. -/
theorem c8_cart_lock (cartRow : Option Order) (now : Nat)
    (pinfo : Option (String × Int × Int)) (pid : Nat) (qty : Int) :
    (update_my_cart cartRow now pinfo pid qty = .error .cartLocked ↔
      ∃ o, cartRow = some o ∧ o.status = "checkout_pending" ∧
        ∃ e, o.checkout_expires_at = some e ∧ now < e) ∧
    (∀ o name price stock, cartRow = some o →
      is_active_checkout o now = false →
      pinfo = some (name, price, stock) → qty ≤ stock →
      update_my_cart cartRow now pinfo pid qty =
        .ok (upsert_cart_items o [(pid, name, qty, price)]) ∧
      (upsert_cart_items o [(pid, name, qty, price)]).status = o.status) := by
  constructor
  · cases cartRow with
    | none =>
      simp only [update_my_cart]
      constructor
      · intro h
        cases h
      · rintro ⟨o, ho, -⟩
        cases ho
    | some o =>
      by_cases hact : is_active_checkout o now = true
      · constructor
        · intro _
          exact ⟨o, rfl, (is_active_checkout_iff o now).mp hact⟩
        · intro _
          simp only [update_my_cart, hact]
          rfl
      · constructor
        · intro h
          rw [Bool.not_eq_true] at hact
          cases pinfo with
          | none =>
            simp [update_my_cart, hact] at h
          | some t =>
            obtain ⟨name, price, stock⟩ := t
            by_cases hs : stock < qty
            · simp [update_my_cart, hact, hs] at h
            · simp [update_my_cart, hact, hs] at h
        · rintro ⟨o2, ho2, hrest⟩
          injection ho2 with ho2
          subst ho2
          exact absurd ((is_active_checkout_iff o now).mpr hrest) hact
  · intro o name price stock hrow hact hpi hqty
    subst hrow
    subst hpi
    simp only [update_my_cart, hact, Bool.false_eq_true, if_false]
    rw [if_neg (not_lt.mpr hqty)]
    exact ⟨rfl, rfl⟩

/-- Witness for C8 (amended): the expired-hold edit on concrete inputs. -/
theorem c8_cart_lock_witness :
    update_my_cart (some orderHold) 200 (some ("widget", 5, 10)) 1 3 =
      .ok (upsert_cart_items orderHold [(1, "widget", 3, 5)]) ∧
    (upsert_cart_items orderHold [(1, "widget", 3, 5)]).status =
      orderHold.status :=
  (c8_cart_lock (some orderHold) 200 (some ("widget", 5, 10)) 1 3).2
    orderHold "widget" 5 10 rfl rfl rfl (by decide)



/-! ## Claim C7 -/

/-- Claim C7: beginning checkout fails on a missing cart or an empty cart;
an unexpired hold is returned as-is (same order, same reserved_until, ledger
untouched, no new reservation); an expired hold first releases the stale
reservation and marks the order cancelled, then behaves exactly like a fresh
checkout on that released state; and every successful transition into the
checkout hold returns reserved_until = now + 60 and sets
checkout_expires_at to it (ttl is the hard-coded 60 seconds). -/
theorem c7_checkout (o : Order) (lg : Ledger) (now : Nat) :
    (checkout_my_cart none lg now = (none, lg, .error .noCart)) ∧
    (o.items = [] →
      checkout_my_cart (some o) lg now = (some o, lg, .error .emptyCart)) ∧
    (o.items ≠ [] → ∀ e, o.status = "checkout_pending" →
      o.checkout_expires_at = some e → now < e →
      checkout_my_cart (some o) lg now = (some o, lg, .ok e)) ∧
    (o.items ≠ [] → ∀ e, o.status = "checkout_pending" →
      o.checkout_expires_at = some e → e ≤ now →
      checkout_my_cart (some o) lg now =
        checkout_my_cart
          (some { o with status := "cancelled", checkout_expires_at := none })
          ((release_stock_reservation lg o.id now).1) now) ∧
    (is_active_checkout o now = false →
      ∀ o2 lg2 r, checkout_my_cart (some o) lg now = (some o2, lg2, .ok r) →
        r = now + 60 ∧ o2.status = "checkout_pending" ∧
        o2.checkout_expires_at = some (now + 60)) := by
  refine ⟨rfl, ?_, ?_, ?_, ?_⟩
  · intro h
    simp [checkout_my_cart, h]
  · intro hne e hstat hexp hlt
    have hie : o.items.isEmpty = false := by
      cases hil : o.items with
      | nil => exact absurd hil hne
      | cons a l => rfl
    simp [checkout_my_cart, hie, hstat, hexp, hlt]
  · intro hne e hstat hexp hle
    have hie : o.items.isEmpty = false := by
      cases hil : o.items with
      | nil => exact absurd hil hne
      | cons a l => rfl
    simp [checkout_my_cart, hie, hstat, hexp, Nat.not_lt.mpr hle, hle,
      Order.itemPairs]
  · intro hact o2 lg2 r h
    by_cases hie : o.items.isEmpty = true
    · rw [show checkout_my_cart (some o) lg now =
          (some o, lg, .error .emptyCart) from by
            simp [checkout_my_cart, hie]] at h
      have h3 := congrArg (fun t => t.2.2) h
      simp at h3
    · rw [Bool.not_eq_true] at hie
      have hb : (o.status == "checkout_pending" &&
          match o.checkout_expires_at with
          | none => false
          | some e => decide (now < e)) = false := hact
      have e0 : checkout_my_cart (some o) lg now =
          (if o.items.isEmpty then
            (some o, lg, Except.error CheckoutErr.emptyCart)
           else if (o.status == "checkout_pending" &&
              match o.checkout_expires_at with
              | none => false
              | some e => decide (now < e)) then
             (some o, lg, Except.ok (o.checkout_expires_at.getD 0))
           else
             let expiredHold := (o.status == "checkout_pending" &&
               match o.checkout_expires_at with
               | none => false
               | some e => decide (e ≤ now));
             let o1 := if expiredHold then
                 { o with status := "cancelled", checkout_expires_at := none }
               else o;
             let lg1 := if expiredHold then
                 (release_stock_reservation lg o.id now).1
               else lg;
             match reserve_stock_for_order lg1 o.id o.user_id o1.itemPairs
                 60 now with
             | .error e =>
               (some o1, lg1, Except.error (CheckoutErr.reserveFailed e))
             | .ok (lgr, ru) =>
               (some { o1 with status := "checkout_pending",
                               checkout_expires_at := some ru },
                lgr, Except.ok ru)) := rfl
      rw [e0, hie] at h
      simp only [Bool.false_eq_true, if_false] at h
      rw [hb] at h
      simp only [Bool.false_eq_true, if_false] at h
      split at h
      · have h3 := congrArg (fun t => t.2.2) h
        simp at h3
      · rename_i lgr ru heq
        obtain ⟨mr, hm, hru, -, -, -⟩ := create_reservations_ok_shape heq
        have hr60 : ru = now + 60 := by
          rw [hru]
          rfl
        have h1 := congrArg (fun t => t.1) h
        have h2 := congrArg (fun t => t.2.2) h
        simp only [Option.some.injEq] at h1
        rw [Except.ok.injEq] at h2
        subst h2
        refine ⟨hr60, ?_, ?_⟩
        · rw [← h1]
        · rw [← h1, ← hr60]

/-- Witness for C7: the unexpired-hold clause on concrete inputs (order held
until 150, checked out again at time 100). -/
theorem c7_checkout_witness :
    checkout_my_cart (some orderHold) lgFree 100 =
      (some orderHold, lgFree, .ok 150) :=
  (c7_checkout orderHold lgFree 100).2.2.1 (by decide) 150 rfl rfl (by decide)



/-! ## Claim C3 -/

theorem mem_keys_iff {items : List (Nat × Int)} {pid : Nat} :
    pid ∈ items.map Prod.fst ↔ ∃ q, (pid, q) ∈ items := by
  rw [List.mem_map]
  constructor
  · rintro ⟨e, he, rfl⟩
    exact ⟨e.2, he⟩
  · rintro ⟨q, hq⟩
    exact ⟨(pid, q), hq, rfl⟩

/-- Claim C3: for a reservation request whose quantities are positive, whose
products all exist, and whose ttl is positive (as the RPC schema
guarantees), Reserve behaves exactly as specified: on success it returns
expiry now + ttl, leaves every stock unchanged, and the reservation table
becomes the globally-purged rows minus this order's old rows plus one new
row per merged product (duplicate product_ids summed), all expiring at
now + ttl; on failure nothing is committed and the error reports the
ascending-first product whose merged quantity exceeds
available = stock − Σ(unexpired reservations excluding this order), together
with that available and requested amount, every smaller requested product
having sufficient availability; and the call succeeds iff every requested
product's merged quantity is within its availability. -/
theorem c3_reserve_spec (lg : Ledger) (o u : Nat) (items : List (Nat × Int))
    (ttl : Int) (now : Nat)
    (hq : ∀ e ∈ items, 0 < e.2)
    (hp : ∀ e ∈ items, (lg.stock e.1).isSome = true)
    (ht : 0 < ttl) :
    (∀ lg2 ru, create_reservations lg o u items ttl now = .ok (lg2, ru) →
      ru = now + ttl.toNat ∧ lg2.stock = lg.stock ∧
      ∃ merged, mergeItems items = .ok merged ∧
        (∀ pid, lookupQty merged pid = itemQtySum items pid) ∧
        lg2.reservations = sessionAfterDeletes lg o now ++
          newReservationRows o u merged (now + ttl.toNat)) ∧
    (∀ err, create_reservations lg o u items ttl now = .error err →
      create_reservations_committed lg o u items ttl now = lg ∧
      ∃ pid, (∃ q, (pid, q) ∈ items) ∧
        err = .insufficientAvailable pid (availableFor lg o pid now)
          (itemQtySum items pid) ∧
        availableFor lg o pid now < itemQtySum items pid ∧
        ∀ pid2, (∃ q2, (pid2, q2) ∈ items) → pid2 < pid →
          itemQtySum items pid2 ≤ availableFor lg o pid2 now) ∧
    ((∃ x, create_reservations lg o u items ttl now = .ok x) ↔
      ∀ e ∈ items, itemQtySum items e.1 ≤ availableFor lg o e.1 now) := by
  obtain ⟨merged, hm⟩ := mergeItems_ok_of_pos hq
  have heff : effectiveTtl ttl = ttl := if_neg (not_le.mpr ht)
  have hmemit : ∀ pid, pid ∈ merged.map Prod.fst ↔ pid ∈ items.map Prod.fst :=
    mergeItems_ok_mem_keys hm
  have hlk : ∀ pid, lookupQty merged pid = itemQtySum items pid :=
    mergeItems_ok_lookup hm
  have havail : ∀ pid s, lg.stock pid = some s →
      availableFor lg o pid now =
        s - reservedQtyFor (sessionAfterDeletes lg o now) pid now (some o) := by
    intro pid s hs
    unfold availableFor
    rw [hs]
    rfl
  refine ⟨?_, ?_, ?_⟩
  · intro lg2 ru hok
    obtain ⟨m2, hm2, hru, hst, hres, hv⟩ := create_reservations_ok_shape hok
    rw [hm] at hm2
    injection hm2 with hm2
    subst hm2
    rw [heff] at hru
    exact ⟨hru, hst, merged, hm, hlk, by rw [hres, hru]⟩
  · intro err herr
    refine ⟨create_reservations_error_rollback herr, ?_⟩
    unfold create_reservations at herr
    simp only [hm] at herr
    cases hv : validateItems lg (sessionAfterDeletes lg o now) o now merged
        (sortedKeys merged) with
    | ok uu =>
      simp only [hv] at herr
      simp at herr
    | error verr =>
      simp only [hv] at herr
      injection herr with herr
      subst herr
      obtain ⟨pid, hpid, hcase, hmin⟩ :=
        validateItems_error_spec (pairwise_sortKeys _) hv
      have hpit : pid ∈ items.map Prod.fst :=
        (hmemit pid).mp (mem_sortedKeys.mp hpid)
      rcases hcase with ⟨hnone, -⟩ | ⟨s, hs, hlt, herr2⟩
      · obtain ⟨q, hqmem⟩ := mem_keys_iff.mp hpit
        have := hp (pid, q) hqmem
        rw [hnone] at this
        cases this
      · refine ⟨pid, mem_keys_iff.mp hpit, ?_, ?_, ?_⟩
        · rw [herr2, havail pid s hs, hlk pid]
        · rw [havail pid s hs, ← hlk pid]
          exact hlt
        · intro pid2 hpid2 hlt2
          have hpit2 : pid2 ∈ sortedKeys merged :=
            mem_sortedKeys.mpr ((hmemit pid2).mpr (mem_keys_iff.mpr hpid2))
          obtain ⟨s2, hs2, hle2⟩ := hmin pid2 hpit2 hlt2
          rw [← hlk pid2, havail pid2 s2 hs2]
          exact hle2
  · constructor
    · rintro ⟨x, hok⟩
      obtain ⟨x1, x2⟩ := x
      obtain ⟨m2, hm2, hru, hst, hres, hv⟩ := create_reservations_ok_shape hok
      rw [hm] at hm2
      injection hm2 with hm2
      subst hm2
      intro e he
      have hein : e.1 ∈ sortedKeys merged :=
        mem_sortedKeys.mpr ((hmemit e.1).mpr
          (mem_keys_iff.mpr ⟨e.2, he⟩))
      obtain ⟨s, hs, hle⟩ := validateItems_ok_iff.mp hv e.1 hein
      rw [← hlk e.1, havail e.1 s hs]
      exact hle
    · intro hall
      have hv : validateItems lg (sessionAfterDeletes lg o now) o now merged
          (sortedKeys merged) = .ok () := by
        rw [validateItems_ok_iff]
        intro pid hpid
        obtain ⟨q, hqmem⟩ :=
          mem_keys_iff.mp ((hmemit pid).mp (mem_sortedKeys.mp hpid))
        obtain ⟨s, hs⟩ := Option.isSome_iff_exists.mp (hp (pid, q) hqmem)
        refine ⟨s, hs, ?_⟩
        have := hall (pid, q) hqmem
        rw [← hlk pid, havail pid s hs] at this
        exact this
      refine ⟨({ lg with reservations := sessionAfterDeletes lg o now ++
        newReservationRows o u merged (now + (effectiveTtl ttl).toNat) },
        now + (effectiveTtl ttl).toNat), ?_⟩
      unfold create_reservations
      simp only [hm, hv]

/-- Witness for C3 on a concrete well-formed request: order 1 reserves 2 and
then 1 more of product 1 (stock 5, no other holds) for 60 seconds at
time 0. -/
theorem c3_reserve_spec_witness :
    ∃ x, create_reservations lgFree 1 7 [(1, 2), (1, 1)] 60 0 = .ok x :=
  (c3_reserve_spec lgFree 1 7 [(1, 2), (1, 1)] 60 0
      (by decide)
      (by
        intro e he
        simp only [List.mem_cons, List.not_mem_nil, or_false] at he
        rcases he with rfl | rfl <;> decide)
      (by decide)).2.2.mpr
    (by
      intro e he
      simp only [List.mem_cons, List.not_mem_nil, or_false] at he
      rcases he with rfl | rfl <;> decide)



/-! ## Claim C5 -/

/-- Claim C5: if reserving succeeds for an order, then immediately (or any
time later, as long as nothing else touched the ledger) reserving again with
the same order and items also succeeds, yields the fresh expiry
now2 + ttl, leaves stocks unchanged; the first call's holds for the order
are not counted against availability (the session the second call validates
against contains no row of this order), and afterwards the order's rows are
exactly the single fresh set — one row per merged product. -/
theorem c5_reserve_idempotent {lg : Ledger} {o u : Nat}
    {items : List (Nat × Int)} {ttl : Int} {now now2 : Nat}
    {lg1 : Ledger} {r1 : Nat}
    (hw : qtyPos lg)
    (h1 : create_reservations lg o u items ttl now = .ok (lg1, r1))
    (hle : now ≤ now2) :
    ∃ lg2, create_reservations lg1 o u items ttl now2 =
        .ok (lg2, now2 + (effectiveTtl ttl).toNat) ∧
      lg2.stock = lg.stock ∧
      (∀ r ∈ sessionAfterDeletes lg1 o now2, r.order_id ≠ o) ∧
      ∃ merged, mergeItems items = .ok merged ∧
        rowsOfOrder lg2 o =
          newReservationRows o u merged (now2 + (effectiveTtl ttl).toNat) := by
  obtain ⟨merged, hm, hru, hst, hres, hv⟩ := create_reservations_ok_shape h1
  have hq0 : ∀ r ∈ lg.reservations, 0 ≤ r.quantity :=
    fun r hr => le_of_lt (hw r hr)
  have hq1 : ∀ r ∈ sessionAfterDeletes lg o now, 0 ≤ r.quantity :=
    fun r hr => hq0 r ((sessionAfterDeletes_sublist lg o now).subset hr)
  have hnew_ord : ∀ r ∈ newReservationRows o u merged r1, r.order_id = o := by
    intro r hr
    obtain ⟨e, he, rfl⟩ := List.mem_map.mp hr
    rfl
  have hrs2 : sessionAfterDeletes lg1 o now2 =
      ((sessionAfterDeletes lg o now).filter
        (fun r => r.activeAt now2)).filter (fun r => r.order_id != o) := by
    unfold sessionAfterDeletes
    rw [show lg1.reservations = sessionAfterDeletes lg o now ++
      newReservationRows o u merged r1 from hres]
    rw [List.filter_append, List.filter_append]
    have hnil : ((newReservationRows o u merged r1).filter
        (fun r => r.activeAt now2)).filter (fun r => r.order_id != o) = [] := by
      rw [List.filter_eq_nil_iff]
      intro r hr
      have : r.order_id = o :=
        hnew_ord r (List.mem_of_mem_filter hr)
      simp [this]
    rw [hnil, List.append_nil]
    rfl
  have hsub2 : (sessionAfterDeletes lg1 o now2).Sublist
      (sessionAfterDeletes lg o now) := by
    rw [hrs2]
    exact (List.filter_sublist _).trans (List.filter_sublist _)
  have hv2 : validateItems lg1 (sessionAfterDeletes lg1 o now2) o now2 merged
      (sortedKeys merged) = .ok () := by
    rw [validateItems_ok_iff]
    intro pid hpid
    obtain ⟨s, hs, hle1⟩ := validateItems_ok_iff.mp hv pid hpid
    refine ⟨s, by rw [hst]; exact hs, ?_⟩
    have hb1 : reservedQtyFor (sessionAfterDeletes lg1 o now2) pid now2
        (some o) ≤ reservedQtyFor (sessionAfterDeletes lg o now) pid now2
        (some o) :=
      reservedQtyFor_sublist_le hsub2 pid now2 (some o) hq1
    have hb2 : reservedQtyFor (sessionAfterDeletes lg o now) pid now2
        (some o) ≤ reservedQtyFor (sessionAfterDeletes lg o now) pid now
        (some o) :=
      reservedQtyFor_time_mono (sessionAfterDeletes lg o now) pid hle
        (some o) hq1
    linarith
  refine ⟨{ lg1 with reservations := sessionAfterDeletes lg1 o now2 ++
      newReservationRows o u merged (now2 + (effectiveTtl ttl).toNat) }, ?_,
      by rw [hst], sessionAfterDeletes_no_order lg1 o now2, merged, hm, ?_⟩
  · unfold create_reservations
    simp only [hm, hv2]
  · unfold rowsOfOrder
    rw [List.filter_append]
    have hnil2 : (sessionAfterDeletes lg1 o now2).filter
        (fun r => r.order_id == o) = [] := by
      rw [List.filter_eq_nil_iff]
      intro r hr
      have := sessionAfterDeletes_no_order lg1 o now2 r hr
      simp [this]
    have hall2 : (newReservationRows o u merged
        (now2 + (effectiveTtl ttl).toNat)).filter
        (fun r => r.order_id == o) =
        newReservationRows o u merged (now2 + (effectiveTtl ttl).toNat) := by
      rw [List.filter_eq_self]
      intro r hr
      obtain ⟨e, he, rfl⟩ := List.mem_map.mp hr
      simp
    rw [hnil2, hall2, List.nil_append]

/-- Witness for C5: order 1 reserves 2 units of product 1 at time 0 (ttl 60)
and again at time 5 on the resulting ledger. -/
theorem c5_reserve_idempotent_witness :
    ∃ lg2, create_reservations ⟨lgFree.stock, [⟨1, 7, 1, 2, 60⟩]⟩ 1 7
        [(1, 2)] 60 5 = .ok (lg2, 65) ∧
      lg2.stock = lgFree.stock ∧
      (∀ r ∈ sessionAfterDeletes (⟨lgFree.stock, [⟨1, 7, 1, 2, 60⟩]⟩ : Ledger)
        1 5, r.order_id ≠ 1) ∧
      ∃ merged, mergeItems [((1 : Nat), (2 : Int))] = .ok merged ∧
        rowsOfOrder lg2 1 = newReservationRows 1 7 merged 65 :=
  c5_reserve_idempotent
    (fun r hr => absurd hr (by simp [lgFree]))
    (rfl : create_reservations lgFree 1 7 [(1, 2)] 60 0 =
      .ok (⟨lgFree.stock, [⟨1, 7, 1, 2, 60⟩]⟩, 60))
    (by decide)


end Ecom
